import Mathlib

/-!
Verification development for the strategy-execution core of the trading
backend: the backtest engine (`app/services/backtest_engine.py`), the
condition evaluator of the service-level simulator
(`app/services/backtest.py`), the KPI calculator
(`app/utils/kpi_calc.py`) and the live order matcher
(`app/services/order_executor.py`).

Prices, balances and quantities are modelled as rationals (`Rat`), standing
for the floats / `Decimal`s of the source.  A pandas cell that may be NaN is
modelled as `Option Rat` with `none` for NaN; every comparison against NaN
is false, as in numpy.  Python exceptions (pandas `KeyError` on a missing
label, `IndexError`, `AttributeError` on a missing enum member,
`ZeroDivisionError`) are modelled with `Except`: a raised exception is an
`Except.error` carrying the exception kind.
-/

namespace BacktestEngine

/-- Exception kinds that can escape the engine's methods, plus the
"Not enough data to run backtest" error result of `run`. -/
inductive BtError where
  | notEnoughData
  | keyError
deriving DecidableEq, Repr

/-- An input bar, one row of the list of dicts handed to
`BacktestEngine.__init__`.  Only the fields the engine reads
(`timestamp`, `close`) are carried; further numeric columns of the
DataFrame (open/high/low/volume and the indicator columns appended by
`_calculate_indicators`) are supplied separately as a `Frame`. -/
structure Bar where
  timestamp : Int
  close : Rat
deriving DecidableEq, Repr

/-- A named DataFrame column: cells are `Option Rat`, `none` meaning NaN. -/
abbrev Frame := List (String × List (Option Rat))

/-- The condition dicts understood by `_evaluate_condition`
(`type` ∈ compare / crosses_above / crosses_below / touched_within /
threshold). -/
inductive Cond where
  | compare (lhs rhs op : String)
  | crossesAbove (lhs rhs : String)
  | crossesBelow (lhs rhs : String)
  | touchedWithin (within : Nat) (cond : Cond)
  | threshold (lhs op : String) (value : Rat)
deriving DecidableEq, Repr

/-- The strategy dict: `indicators` (only the `length` param matters for the
lookback question) and `rules.buy_condition/sell_condition.entry/exit`.
Missing keys default to empty lists, as `strategy.get(...)` does. -/
structure IndicatorSpec where
  itype : String
  length : Option Nat
deriving DecidableEq, Repr

structure Strategy where
  indicators : List IndicatorSpec
  buyEntry : List Cond
  buyExit : List Cond
  sellEntry : List Cond
  sellExit : List Cond
deriving Repr

/-- Models `self.data[key]`: column lookup in the DataFrame. -/
def getSeries (f : Frame) (key : String) : Option (List (Option Rat)) :=
  f.lookup key

/-- Models `series[i]`: label lookup on a RangeIndex; a label outside `0..len-1`
raises `KeyError`. -/
def getCell (s : List (Option Rat)) (i : Nat) : Except BtError (Option Rat) :=
  match s.get? i with
  | some v => .ok v
  | none => .error .keyError

/-- Models `a < b` on cells: false whenever either side is NaN (numpy semantics). -/
def cellLt (a b : Option Rat) : Bool :=
  match a, b with
  | some x, some y => decide (x < y)
  | _, _ => false

/-- The `ops` dict of `_evaluate_condition`: `<=`, `>=`, `<`, `>`; any
other operator string falls through to `return False`.  NaN on either
side compares false. -/
def applyOp (op : String) (a b : Option Rat) : Bool :=
  match a, b with
  | some x, some y =>
    if op = "<=" then decide (x ≤ y)
    else if op = ">=" then decide (y ≤ x)
    else if op = "<" then decide (x < y)
    else if op = ">" then decide (y < x)
    else false
  | _, _ => false

/-- The `for j in range(..)` loop of the `touched_within` branch, with
the inner-condition evaluator passed in: it short-circuits on the first
inner `True`, and an exception from an earlier iteration propagates
before later iterations are reached. -/
def touchedLoop (ev : Nat → Except BtError Bool) : List Nat → Except BtError Bool
  | [] => .ok false
  | j :: js =>
    match ev j with
    | .error e => .error e
    | .ok true => .ok true
    | .ok false => touchedLoop ev js

/-- Models `BacktestEngine._evaluate_condition(condition, i)`.  Follows the source
line by line: missing columns short-circuit to `False` before any cell is
read; `crosses_above`/`crosses_below` at `i = 0` read label `-1` of a
RangeIndex series, which raises `KeyError`; `touched_within` scans
`range(max(0, i - within), i + 1)`. -/
def evaluate_condition (f : Frame) : Cond → Nat → Except BtError Bool
  | .compare lhs rhs op, i =>
    match getSeries f lhs, getSeries f rhs with
    | some ls, some rs =>
      match getCell ls i, getCell rs i with
      | .ok a, .ok b => .ok (applyOp op a b)
      | .error e, _ => .error e
      | _, .error e => .error e
    | _, _ => .ok false
  | .crossesAbove lhs rhs, i =>
    match getSeries f lhs, getSeries f rhs with
    | some ls, some rs =>
      if i = 0 then .error .keyError
      else
        match getCell ls (i - 1), getCell rs (i - 1) with
        | .ok a', .ok b' =>
          if cellLt a' b' then
            match getCell ls i, getCell rs i with
            | .ok a, .ok b => .ok (cellLt b a)
            | .error e, _ => .error e
            | _, .error e => .error e
          else .ok false
        | .error e, _ => .error e
        | _, .error e => .error e
    | _, _ => .ok false
  | .crossesBelow lhs rhs, i =>
    match getSeries f lhs, getSeries f rhs with
    | some ls, some rs =>
      if i = 0 then .error .keyError
      else
        match getCell ls (i - 1), getCell rs (i - 1) with
        | .ok a', .ok b' =>
          if cellLt b' a' then
            match getCell ls i, getCell rs i with
            | .ok a, .ok b => .ok (cellLt a b)
            | .error e, _ => .error e
            | _, .error e => .error e
          else .ok false
        | .error e, _ => .error e
        | _, .error e => .error e
    | _, _ => .ok false
  | .touchedWithin within cond, i =>
    touchedLoop (fun j => evaluate_condition f cond j)
      (List.range' (i - within) (i + 1 - (i - within)))
  | .threshold lhs op v, i =>
    match getSeries f lhs with
    | some ls =>
      match getCell ls i with
      | .ok a => .ok (applyOp op a (some v))
      | .error e => .error e
    | none => .ok false

/-- Models `all(self._evaluate_condition(cond, i) for cond in conds)`: Python `all`
on a generator — short-circuits on the first `False`, `True` on the empty
list, and an exception from a later element is not reached. -/
def allConds (f : Frame) : List Cond → Nat → Except BtError Bool
  | [], _ => .ok true
  | c :: cs, i =>
    match evaluate_condition f c i with
    | .error e => .error e
    | .ok false => .ok false
    | .ok true => allConds f cs i

/-- Models `any(self._evaluate_condition(cond, i) for cond in conds)`. -/
def anyConds (f : Frame) : List Cond → Nat → Except BtError Bool
  | [], _ => .ok false
  | c :: cs, i =>
    match evaluate_condition f c i with
    | .error e => .error e
    | .ok true => .ok true
    | .ok false => anyConds f cs i

/-- An entry of the `trades` list built by `_execute_trades`. -/
structure Trade where
  timestamp : Int
  price : Rat
  side : String
deriving DecidableEq, Repr

/-- The mutable state of `_execute_trades`: the `signal`, `position` and
`equity` DataFrame columns (assigned by index via `.loc`), the `trades`
list, and the loop-local `position` variable. -/
structure RunState where
  signal : List Int
  posCol : List Int
  equity : List Rat
  trades : List Trade
  position : Int
deriving DecidableEq, Repr

/-- Models `self.initial_balance = 1000000`: a constant fixed in `__init__`,
not a constructor argument. -/
def initial_balance : Rat := 1000000

/-- Column initialisation of `_execute_trades`:
`signal = 0`, `position = 0`, `equity = initial_balance` on every row,
`trades = []`, `position = 0`. -/
def initState (n : Nat) : RunState :=
  { signal := List.replicate n 0
    posCol := List.replicate n 0
    equity := List.replicate n initial_balance
    trades := []
    position := 0 }

/-- Models `trades.append({'timestamp': self.data['timestamp'][i], 'price':
self.data['close'][i], 'side': side})`. -/
def appendTrade (times : List Int) (close : List Rat) (i : Nat) (side : String)
    (trades : List Trade) : Except BtError (List Trade) :=
  match times.get? i, close.get? i with
  | some t, some c => .ok (trades ++ [⟨t, c, side⟩])
  | _, _ => .error .keyError

/-- Steps 1–3 of one loop iteration of `_execute_trades` (the signal /
position / trade branch), returning the new `position` variable and the
updated `signal` column and `trades` list.  The equity and position
columns are not touched by this part of the body. -/
def tradePhase (f : Frame) (s : Strategy) (times : List Int) (close : List Rat)
    (position : Int) (signal : List Int) (trades : List Trade) (i : Nat) :
    Except BtError (Int × List Int × List Trade) :=
  if position = 0 then
    match allConds f s.buyEntry i with
    | .error e => .error e
    | .ok true =>
      match appendTrade times close i "buy" trades with
      | .error e => .error e
      | .ok tr => .ok (1, signal.set i 1, tr)
    | .ok false =>
      match allConds f s.sellEntry i with
      | .error e => .error e
      | .ok true =>
        match appendTrade times close i "sell" trades with
        | .error e => .error e
        | .ok tr => .ok (-1, signal.set i (-1), tr)
      | .ok false => .ok (position, signal, trades)
  else if position = 1 then
    match anyConds f s.buyExit i with
    | .error e => .error e
    | .ok true =>
      match appendTrade times close i "sell" trades with
      | .error e => .error e
      | .ok tr => .ok (0, signal.set i (-1), tr)
    | .ok false => .ok (position, signal, trades)
  else if position = -1 then
    match anyConds f s.sellExit i with
    | .error e => .error e
    | .ok true =>
      match appendTrade times close i "buy" trades with
      | .error e => .error e
      | .ok tr => .ok (0, signal.set i 1, tr)
    | .ok false => .ok (position, signal, trades)
  else .ok (position, signal, trades)

/-- Models `self.data.loc[i, 'equity'] = self.data.loc[i-1, 'equity'] +
self.data.loc[i-1, 'position'] * (close[i] - close[i-1])`, guarded by
`if i > 0`.  The position column has just been assigned at `i`, so the
read at `i - 1` sees the value set on the previous bar. -/
def equityPhase (close : List Rat) (posCol : List Int) (equity : List Rat)
    (i : Nat) : Except BtError (List Rat) :=
  if i > 0 then
    match equity.get? (i - 1), posCol.get? (i - 1),
        close.get? i, close.get? (i - 1) with
    | some e, some p, some c, some c' =>
      .ok (equity.set i (e + (p : Rat) * (c - c')))
    | _, _, _, _ => .error .keyError
  else .ok equity

/-- One full iteration of the `for i in range(1, len(self.data))` loop of
`_execute_trades`. -/
def execStep (f : Frame) (s : Strategy) (times : List Int) (close : List Rat)
    (st : RunState) (i : Nat) : Except BtError RunState :=
  match tradePhase f s times close st.position st.signal st.trades i with
  | .error e => .error e
  | .ok (p, sg, tr) =>
    let posCol := st.posCol.set i p
    match equityPhase close posCol st.equity i with
    | .error e => .error e
    | .ok eq =>
      .ok { signal := sg, posCol := posCol, equity := eq, trades := tr, position := p }

/-- The loop of `_execute_trades` over the given index list. -/
def execSteps (f : Frame) (s : Strategy) (times : List Int) (close : List Rat) :
    List Nat → RunState → Except BtError RunState
  | [], st => .ok st
  | i :: is, st =>
    match execStep f s times close st i with
    | .error e => .error e
    | .ok st' => execSteps f s times close is st'

/-- Models `BacktestEngine._execute_trades`, run on the post-indicator DataFrame:
the `close`/`timestamp` columns come from the input bars and `extra` holds
any further columns (indicators, derived).  The loop runs over
`range(1, len(self.data))`. -/
def execute_trades (s : Strategy) (bars : List Bar) (extra : Frame) :
    Except BtError RunState :=
  execSteps (("close", bars.map (fun b => some b.close)) :: extra) s
    (bars.map (·.timestamp)) (bars.map (·.close))
    (List.range' 1 (bars.length - 1)) (initState bars.length)

/-- The results dict of `run`: the `trades` list set by `_execute_trades`
and the `equity_curve` records (`timestamp`, `equity`, one per DataFrame
row) emitted by `_calculate_metrics`. -/
structure RunResult where
  trades : List Trade
  equityCurve : List (Int × Rat)
deriving DecidableEq, Repr

/-- Models `BacktestEngine.run`:  `len(self.data) < 2` returns the
"Not enough data to run backtest" error result; otherwise the trades and
the per-bar equity curve are produced. -/
def run (s : Strategy) (bars : List Bar) (extra : Frame) :
    Except BtError RunResult :=
  if bars.length < 2 then .error .notEnoughData
  else
    match execute_trades s bars extra with
    | .error e => .error e
    | .ok st => .ok { trades := st.trades
                      equityCurve := List.zip (bars.map (·.timestamp)) st.equity }

/-- Lookback as §4.1 of the design defines it: the maximum `length`
parameter across the strategy's indicators (0 if none declare one).  The
engine source has no such quantity — this definition only serves to state
the lookback claim against the engine. -/
def lookback (s : Strategy) : Nat :=
  (s.indicators.filterMap (·.length)).foldr max 0

end BacktestEngine

namespace BacktestService

/-- Exceptions that can escape the service-level simulator
(`app/services/backtest.py`). `attributeError` stands for the
`AttributeError` raised when `_check_single_condition` evaluates
`OperatorEnum.IS_ABOVE_OR_EQUAL` — a member the `OperatorEnum` of
`app/schemas/backtest.py` does not define.  `indexError` stands for a
positional `.iloc` access past the end of a price column. -/
inductive SvcErr where
  | attributeError
  | indexError
  | keyError
  | zeroDivisionError
deriving DecidableEq, Repr

/-- Models `OperatorEnum` of `app/schemas/backtest.py`: exactly four members. -/
inductive OperatorEnum where
  | is_above
  | is_below
  | crosses_above
  | crosses_below
deriving DecidableEq, Repr

/-- Models `ConditionSchema`: indicator1 / operator / indicator2. -/
structure ConditionSchema where
  indicator1 : String
  operator : OperatorEnum
  indicator2 : String
deriving DecidableEq, Repr

/-- Models `ConditionGroupSchema`: optional `all` and `any` lists.  `None` and
`[]` behave identically under the `if group.all:` truthiness tests of
`_check_condition_group`, so both are modelled as `[]`. -/
structure ConditionGroupSchema where
  all : List ConditionSchema
  any : List ConditionSchema
deriving Repr

/-- The data `_get_value` reads: the price columns of
`self.historical_data` (plain floats), the single-Series entries of
`self.indicators_data`, and its DataFrame entries (column name →
series; cells may be NaN = `none`).  `dates` is the DataFrame index. -/
structure SvcData where
  dates : List Int
  priceCols : List (String × List Rat)
  singleInd : List (String × List (Option Rat))
  multiInd : List (String × List (String × List (Option Rat)))

/-- Models `BacktestService._get_value(indicator_name, index)`.
Returns `none` for Python `None`, `some none` for a NaN cell and
`some (some x)` for a number.  A price-column access past the end of the
series raises (`.iloc` positional `IndexError`, no `try` around it); an
unknown price-like name (e.g. `"price"`, which is not a DataFrame column)
raises `KeyError`; composite (`"A.B"`) and single-indicator lookups
swallow their `IndexError` and return `None`. -/
def get_value (d : SvcData) (name : String) (index : Nat) :
    Except SvcErr (Option (Option Rat)) :=
  if ["price", "close", "open", "high", "low"].contains name.toLower then
    match d.priceCols.lookup name.toLower with
    | none => .error .keyError
    | some col =>
      match col.get? index with
      | some v => .ok (some (some v))
      | none => .error .indexError
  else if name.contains '.' then
    match name.splitOn "." with
    | main :: rest =>
      match d.multiInd.lookup main with
      | none => .ok none
      | some df =>
        match df.lookup (String.intercalate "." rest) with
        | none => .ok none
        | some ser =>
          match ser.get? index with
          | some v => .ok (some v)
          | none => .ok none
    | [] => .ok none
  else
    match d.singleInd.lookup name with
    | none => .ok none
    | some ser =>
      match ser.get? index with
      | some v => .ok (some v)
      | none => .ok none

/-- Models `val1 > val2` where either value may be NaN (`none`): false then. -/
def valGt (a b : Option Rat) : Bool :=
  match a, b with
  | some x, some y => decide (y < x)
  | _, _ => false

/-- Models `BacktestService._check_single_condition(condition, index)`.
After the `None` guard, the `elif` chain tests `IS_ABOVE` and `IS_BELOW`;
the next test evaluates `OperatorEnum.IS_ABOVE_OR_EQUAL`, a member the
schema's enum does not define, so every other operator — including the
crosses operators, whose handling further down is unreachable — raises
`AttributeError` at that point. -/
def check_single_condition (d : SvcData) (c : ConditionSchema) (index : Nat) :
    Except SvcErr Bool :=
  match get_value d c.indicator1 index with
  | .error e => .error e
  | .ok v1 =>
    match get_value d c.indicator2 index with
    | .error e => .error e
    | .ok v2 =>
      match v1, v2 with
      | some a, some b =>
        match c.operator with
        | .is_above => .ok (valGt a b)
        | .is_below => .ok (valGt b a)
        | _ => .error .attributeError
      | _, _ => .ok false

/-- Python `all(...)` over `group.all` with short-circuit. -/
def allSvc (d : SvcData) : List ConditionSchema → Nat → Except SvcErr Bool
  | [], _ => .ok true
  | c :: cs, i =>
    match check_single_condition d c i with
    | .error e => .error e
    | .ok false => .ok false
    | .ok true => allSvc d cs i

/-- Python `any(...)` over `group.any` with short-circuit. -/
def anySvc (d : SvcData) : List ConditionSchema → Nat → Except SvcErr Bool
  | [], _ => .ok false
  | c :: cs, i =>
    match check_single_condition d c i with
    | .error e => .error e
    | .ok true => .ok true
    | .ok false => anySvc d cs i

/-- Models `BacktestService._check_condition_group(group, index)`:
`if group.all: return all(...)`, `if group.any: return any(...)`, else
`return False` — a group with both lists empty (or `None`) is never
satisfied. -/
def check_condition_group (d : SvcData) (g : ConditionGroupSchema) (index : Nat) :
    Except SvcErr Bool :=
  if g.all ≠ [] then allSvc d g.all index
  else if g.any ≠ [] then anySvc d g.any index
  else .ok false

/-- The strategy definition fields the simulation loop reads. -/
structure SvcStrategy where
  buy_conditions : ConditionGroupSchema
  sell_conditions : ConditionGroupSchema
  order_amount_percent : Rat
deriving Repr

/-- One entry of `self.trades`; `profit` is only present on sells. -/
structure SvcTrade where
  ttype : String
  date : Int
  price : Rat
  quantity : Rat
  profit : Option Rat
deriving DecidableEq, Repr

/-- Models `self.position`: `{'quantity', 'entry_price', 'entry_date'}`. -/
structure SvcPos where
  quantity : Rat
  entry_price : Rat
  entry_date : Int
deriving DecidableEq, Repr

/-- The mutable trading state of `BacktestService`. -/
structure SvcState where
  cash : Rat
  position : Option SvcPos
  trades : List SvcTrade
  history : List (Int × Rat)
deriving DecidableEq, Repr

/-- Models `self.initial_cash = 10_000_000`. -/
def initial_cash : Rat := 10000000

/-- Models `self.historical_data['close']`. -/
def closeCol (d : SvcData) : Except SvcErr (List Rat) :=
  match d.priceCols.lookup "close" with
  | some col => .ok col
  | none => .error .keyError

/-- Models `.iloc[i]` on a price column / on the index (valid `0 ≤ i < len`). -/
def ilocAt {α : Type} (xs : List α) (i : Nat) : Except SvcErr α :=
  match xs.get? i with
  | some x => .ok x
  | none => .error .indexError

/-- Models `BacktestService._evaluate_conditions(index)`. -/
def evaluate_conditions (d : SvcData) (s : SvcStrategy) (pos : Option SvcPos)
    (index : Nat) : Except SvcErr String :=
  match pos with
  | none =>
    match check_condition_group d s.buy_conditions index with
    | .error e => .error e
    | .ok b => .ok (if b then "buy" else "hold")
  | some _ =>
    match check_condition_group d s.sell_conditions index with
    | .error e => .error e
    | .ok b => .ok (if b then "sell" else "hold")

/-- Models `BacktestService._execute_buy(index)`.  `quantity = amount // price`
is float floor division; a zero close price would raise
`ZeroDivisionError`. -/
def execute_buy (d : SvcData) (s : SvcStrategy) (st : SvcState) (index : Nat) :
    Except SvcErr SvcState :=
  match closeCol d with
  | .error e => .error e
  | .ok col =>
    match ilocAt col index, ilocAt d.dates index with
    | .ok price, .ok date =>
      let amount := st.cash * (s.order_amount_percent / 100)
      if price = 0 then .error .zeroDivisionError
      else
        let quantity : Rat := ((amount / price).floor : Int)
        if 0 < quantity then
          .ok { st with
            cash := st.cash - quantity * price
            position := some ⟨quantity, price, date⟩
            trades := st.trades ++ [⟨"buy", date, price, quantity, none⟩] }
        else .ok st
    | .error e, _ => .error e
    | _, .error e => .error e

/-- Models `BacktestService._execute_sell(index)`. -/
def execute_sell (d : SvcData) (st : SvcState) (index : Nat) :
    Except SvcErr SvcState :=
  match st.position with
  | none => pure st
  | some pos =>
    match closeCol d with
    | .error e => .error e
    | .ok col =>
      match ilocAt col index, ilocAt d.dates index with
      | .ok price, .ok date =>
        let profit := (price - pos.entry_price) * pos.quantity
        .ok { st with
          cash := st.cash + pos.quantity * price
          trades := st.trades ++ [⟨"sell", date, price, pos.quantity, some profit⟩]
          position := none }
      | .error e, _ => .error e
      | _, .error e => .error e

/-- Models `BacktestService._update_portfolio_value(index)`. -/
def update_portfolio_value (d : SvcData) (st : SvcState) (index : Nat) :
    Except SvcErr SvcState :=
  match closeCol d with
  | .error e => .error e
  | .ok col =>
    match ilocAt col index, ilocAt d.dates index with
    | .ok price, .ok date =>
      let holdings := match st.position with
        | some pos => pos.quantity * price
        | none => 0
      .ok { st with history := st.history ++ [(date, st.cash + holdings)] }
    | .error e, _ => .error e
    | _, .error e => .error e

/-- One iteration of the simulation loop of `BacktestService.run`
(step 5: evaluate, act, record portfolio value). -/
def svcStep (d : SvcData) (s : SvcStrategy) (st : SvcState) (i : Nat) :
    Except SvcErr SvcState :=
  match evaluate_conditions d s st.position i with
  | .error e => .error e
  | .ok action =>
    match
      (if action = "buy" then execute_buy d s st i
       else if action = "sell" then execute_sell d st i
       else .ok st) with
    | .error e => .error e
    | .ok st1 => update_portfolio_value d st1 i

/-- The `for i in range(len(self.historical_data))` loop. -/
def svcSteps (d : SvcData) (s : SvcStrategy) :
    List Nat → SvcState → Except SvcErr SvcState
  | [], st => .ok st
  | i :: is, st =>
    match svcStep d s st i with
    | .error e => .error e
    | .ok st' => svcSteps d s is st'

/-- The simulation part of `BacktestService.run`: state reset to
`initial_cash` / no position / empty logs, then the bar loop. -/
def simulate (d : SvcData) (s : SvcStrategy) : Except SvcErr SvcState :=
  svcSteps d s (List.range d.dates.length) ⟨initial_cash, none, [], []⟩

end BacktestService

namespace KpiCalc

/-- A trade record consumed by `KpiCalc._compute_trade_stats`:
`{"timestamp": ..., "price": ..., "side": "buy"|"sell"}`. -/
structure KTrade where
  timestamp : Int
  price : Rat
  side : String
deriving DecidableEq, Repr

/-- Models `float('inf')` or a finite float: the possible values of
`profit_factor`. -/
inductive PF where
  | val (q : Rat)
  | inf
deriving DecidableEq, Repr

/-- The trade-statistics entries of the KPI dict. -/
structure TradeStats where
  num_trades : Nat
  win_rate : Rat
  profit_factor : PF
  expectancy : Rat
deriving DecidableEq, Repr

/-- Insert keeping earlier elements with the same timestamp in front:
together with `sortTrades` this is a stable sort by timestamp, modelling
`df.sort_values("timestamp")` (which coincides with any comparison sort
when the timestamps are distinct). -/
def insertByTs (t : KTrade) : List KTrade → List KTrade
  | [] => [t]
  | u :: us =>
    if u.timestamp ≤ t.timestamp then u :: insertByTs t us
    else t :: u :: us

/-- Stable sort of the trade list by timestamp. -/
def sortTrades (ts : List KTrade) : List KTrade :=
  ts.foldl (fun acc t => insertByTs t acc) []

/-- The `while i + 1 < len(df)` pairing loop: an adjacent buy-then-sell
pair yields `b.price - a.price`, an adjacent sell-then-buy pair yields
`a.price - b.price`, any other adjacent pair advances by one trade.
The fuel argument (instantiated with the list length, which the loop
never exhausts) makes the recursion structural. -/
def pairLoop : Nat → List KTrade → List Rat
  | 0, _ => []
  | _ + 1, [] => []
  | _ + 1, [_] => []
  | fuel + 1, a :: b :: rest =>
    if a.side = "buy" ∧ b.side = "sell" then
      (b.price - a.price) :: pairLoop fuel rest
    else if a.side = "sell" ∧ b.side = "buy" then
      (a.price - b.price) :: pairLoop fuel rest
    else pairLoop fuel (b :: rest)

/-- The `pnl_list` of `_compute_trade_stats` for a (sorted) trade list. -/
def pairPnls (ts : List KTrade) : List Rat :=
  pairLoop ts.length ts

/-- Models `gross_win`: the sum of the positive pair P&Ls. -/
def grossWin (ps : List Rat) : Rat :=
  (ps.filter (fun p => 0 < p)).sum

/-- Models `gross_loss`: minus the sum of the negative pair P&Ls. -/
def grossLoss (ps : List Rat) : Rat :=
  ((ps.filter (fun p => p < 0)).map (fun p => -p)).sum

/-- Models `KpiCalc._compute_trade_stats(trades)`.  Fewer than two trades — or a
pairing that produces no pair — short-circuits to the zero statistics with
`num_trades = len(trades)`; otherwise the trades are sorted by timestamp,
paired, and `profit_factor = gross_win / gross_loss if gross_loss > 0 else
inf if gross_win > 0 else 0`. -/
def compute_trade_stats (trades : List KTrade) : TradeStats :=
  if trades.length < 2 then ⟨trades.length, 0, .val 0, 0⟩
  else
    let ps := pairPnls (sortTrades trades)
    if ps = [] then ⟨trades.length, 0, .val 0, 0⟩
    else
      let gw := grossWin ps
      let gl := grossLoss ps
      { num_trades := ps.length
        win_rate := ((ps.filter (fun p => 0 < p)).length : Rat) / (ps.length : Rat)
        profit_factor :=
          if 0 < gl then .val (gw / gl) else if 0 < gw then .inf else .val 0
        expectancy := ps.sum / (ps.length : Rat) }

end KpiCalc

namespace OrderExecutor

/-- Exceptions inside the matcher's per-tick session.  `dbFailure` stands
for a database-layer exception raised by one of the awaited repository
calls (injected through a `FailSpec` below); the others are the explicit
`ValueError` / `RuntimeError` raises of the repositories and of
`_update_position` / `_update_balance`, the `AttributeError` of
`account.current_balance` on a missing account, and `Decimal` division by
zero. -/
inductive LiveErr where
  | dbFailure
  | valueError
  | runtimeError
  | attributeError
  | zeroDivisionError
deriving DecidableEq, Repr

inductive OrderSide where
  | buy
  | sell
deriving DecidableEq, Repr

inductive OrderType where
  | market
  | limit
  | stop
deriving DecidableEq, Repr

/-- Models `OrderStatus`; the source member `PARTIAL` (unused by the matcher) is
named `halfFilled` here because its source name is reserved in Lean. -/
inductive OrderStatus where
  | pending
  | halfFilled
  | filled
  | canceled
deriving DecidableEq, Repr

/-- An `orders` row.  `limit_price` is nullable in the schema and read
only for limit orders; it is carried as a plain rational. -/
structure Order where
  order_id : Nat
  account_id : Nat
  ticker_id : Nat
  side : OrderSide
  order_type : OrderType
  quantity : Rat
  limit_price : Rat
  status : OrderStatus
deriving DecidableEq, Repr

/-- A `positions` row; `(account_id, ticker_id)` is unique, so the row is
identified by that pair rather than by its surrogate `position_id`. -/
structure Position where
  account_id : Nat
  ticker_id : Nat
  quantity : Rat
  average_buy_price : Rat
deriving DecidableEq, Repr

/-- A `paper_trading_accounts` row (only the fields the matcher touches). -/
structure Account where
  account_id : Nat
  current_balance : Rat
deriving DecidableEq, Repr

/-- An `executions` row (`exec_time` is wall-clock time, not modelled). -/
structure Execution where
  order_id : Nat
  quantity : Rat
  price : Rat
deriving DecidableEq, Repr

/-- The database state one tick's session works on. -/
structure DbState where
  orders : List Order
  positions : List Position
  accounts : List Account
  executions : List Execution
deriving DecidableEq, Repr

/-- A price event after `_get_ticker_id` resolution. -/
structure Tick where
  ticker_id : Nat
  price : Rat
deriving DecidableEq, Repr

/-- Injected database-layer failures: for each fill step, the order ids
whose awaited repository call raises there.  `noFail` is the failure-free
run. -/
structure FailSpec where
  failAccountFetch : Nat → Bool
  failPositionFetch : Nat → Bool
  failCreateExecution : Nat → Bool
  failOrderUpdate : Nat → Bool
  failPositionWrite : Nat → Bool
  failBalanceWrite : Nat → Bool

def noFail : FailSpec :=
  ⟨fun _ => false, fun _ => false, fun _ => false,
   fun _ => false, fun _ => false, fun _ => false⟩

/-- Models `PaperTradingRepository.get_account_by_id`. -/
def get_account_by_id (st : DbState) (account_id : Nat) : Option Account :=
  st.accounts.find? (fun a => a.account_id = account_id)

/-- Models `PositionRepository.get_position(account_id, ticker_id)`. -/
def get_position (st : DbState) (account_id ticker_id : Nat) : Option Position :=
  st.positions.find? (fun p => p.account_id = account_id ∧ p.ticker_id = ticker_id)

/-- Models `PositionRepository.upsert_position`: update the row with the same
`(account_id, ticker_id)` key if it exists, else insert. -/
def upsert_position (st : DbState) (p : Position) : DbState :=
  if (get_position st p.account_id p.ticker_id).isSome then
    { st with positions := st.positions.map (fun q =>
        if q.account_id = p.account_id ∧ q.ticker_id = p.ticker_id then
          { q with quantity := p.quantity, average_buy_price := p.average_buy_price }
        else q) }
  else { st with positions := st.positions ++ [p] }

/-- Models `PositionRepository.delete_position` of the row holding the given
`(account_id, ticker_id)` key (unique per the schema constraint). -/
def delete_position (st : DbState) (account_id ticker_id : Nat) : DbState :=
  { st with positions := st.positions.filter (fun q =>
      ¬(q.account_id = account_id ∧ q.ticker_id = ticker_id)) }

/-- Models `OrderRepository.update_order_status`: `ValueError` when no order has
the given id (`completed_at` is wall-clock time, not modelled). -/
def update_order_status (st : DbState) (order_id : Nat) (status : OrderStatus) :
    Except LiveErr DbState :=
  if st.orders.any (fun o => o.order_id = order_id) then
    .ok { st with orders := st.orders.map (fun o =>
        if o.order_id = order_id then { o with status := status } else o) }
  else .error .valueError

/-- Models `OrderRepository.cancel_order`. -/
def cancel_order (st : DbState) (order_id : Nat) : Except LiveErr DbState :=
  update_order_status st order_id .canceled

/-- Models `Decimal('0.00000001')`: the dust threshold below which a sold-down
position row is deleted. -/
def dustThreshold : Rat := 1 / 100000000

/-- Models `OrderExecutor._should_fill(order, current_price)`. -/
def should_fill (o : Order) (current_price : Rat) : Bool :=
  match o.order_type with
  | .market => true
  | .limit =>
    if o.side = .buy then decide (current_price ≤ o.limit_price)
    else decide (o.limit_price ≤ current_price)
  | .stop => false

/-- Models `OrderExecutor._update_position` (step 5).  On a buy the average
price is recomputed (`Decimal` division by zero would raise if the total
quantity were zero); on a sell a missing position raises `RuntimeError`,
and a remaining quantity at or below the dust threshold deletes the row. -/
def update_position (st : DbState) (o : Order) (price : Rat) :
    Except LiveErr DbState :=
  match o.side with
  | .buy =>
    match get_position st o.account_id o.ticker_id with
    | some p =>
      if p.quantity + o.quantity = 0 then .error .zeroDivisionError
      else
        .ok (upsert_position st
          { p with quantity := p.quantity + o.quantity
                   average_buy_price :=
                     (p.average_buy_price * p.quantity + price * o.quantity) /
                       (p.quantity + o.quantity) })
    | none =>
      .ok (upsert_position st ⟨o.account_id, o.ticker_id, o.quantity, price⟩)
  | .sell =>
    match get_position st o.account_id o.ticker_id with
    | none => .error .runtimeError
    | some p =>
      if p.quantity - o.quantity ≤ dustThreshold then
        .ok (delete_position st o.account_id o.ticker_id)
      else
        .ok (upsert_position st { p with quantity := p.quantity - o.quantity })

/-- Models `OrderExecutor._update_balance` (step 6): `RuntimeError` when the
account is missing; debit on buy, credit on sell. -/
def update_balance (st : DbState) (o : Order) (price : Rat) :
    Except LiveErr DbState :=
  match get_account_by_id st o.account_id with
  | none => .error .runtimeError
  | some a =>
    let nb :=
      if o.side = .buy then a.current_balance - price * o.quantity
      else a.current_balance + price * o.quantity
    .ok { st with accounts := st.accounts.map (fun x =>
        if x.account_id = o.account_id then { x with current_balance := nb } else x) }

/-- Steps 3–6 of `OrderExecutor._fill_order`: execution record, order
status `FILLED`, position update, balance update.  Each awaited
repository call may raise a database failure per the `FailSpec`. -/
def fill_steps (fs : FailSpec) (st : DbState) (o : Order) (price : Rat) :
    Except LiveErr DbState :=
  if fs.failCreateExecution o.order_id then .error .dbFailure
  else
    if fs.failOrderUpdate o.order_id then .error .dbFailure
    else
      match update_order_status
          { st with executions := st.executions ++ [⟨o.order_id, o.quantity, price⟩] }
          o.order_id .filled with
      | .error e => .error e
      | .ok st2 =>
        if fs.failPositionWrite o.order_id then .error .dbFailure
        else
          match update_position st2 o price with
          | .error e => .error e
          | .ok st3 =>
            if fs.failBalanceWrite o.order_id then .error .dbFailure
            else update_balance st3 o price

/-- Models `OrderExecutor._fill_order`: re-validation (steps 1–2) transitions a
stale order directly to `CANCELED`; otherwise steps 3–6 run.  Any
exception is logged and re-raised to the caller. -/
def fill_order (fs : FailSpec) (st : DbState) (o : Order) (price : Rat) :
    Except LiveErr DbState :=
  match o.side with
  | .buy =>
    if fs.failAccountFetch o.order_id then .error .dbFailure
    else
      match get_account_by_id st o.account_id with
      | none => .error .attributeError
      | some account =>
        if account.current_balance < o.quantity * price then
          cancel_order st o.order_id
        else fill_steps fs st o price
  | .sell =>
    if fs.failPositionFetch o.order_id then .error .dbFailure
    else
      match get_position st o.account_id o.ticker_id with
      | none => cancel_order st o.order_id
      | some p =>
        if p.quantity < o.quantity then cancel_order st o.order_id
        else fill_steps fs st o price

/-- Models `OrderRepository.get_pending_orders_by_ticker`: only orders still in
`PENDING` status for the tick's ticker are selected. -/
def pendingOrders (st : DbState) (ticker_id : Nat) : List Order :=
  st.orders.filter (fun o => o.ticker_id = ticker_id ∧ o.status = .pending)

/-- The `for order in pending_orders` loop of `_process_price_event`,
threading the session state: an exception from `_fill_order` propagates
and aborts the remaining iterations. -/
def fillLoop (fs : FailSpec) (price : Rat) :
    List Order → DbState → Except LiveErr DbState
  | [], st => .ok st
  | o :: os, st =>
    if should_fill o price then
      match fill_order fs st o price with
      | .error e => .error e
      | .ok st' => fillLoop fs price os st'
    else fillLoop fs price os st

/-- Models `OrderExecutor._process_price_event`: fetch the tick's pending
orders, run the fill loop in one session, `commit` on success; on an
exception `rollback` discards every uncommitted change of the tick and
the error is logged — the event handler itself never raises. -/
def process_price_event (fs : FailSpec) (st : DbState) (tick : Tick) : DbState :=
  match fillLoop fs tick.price (pendingOrders st tick.ticker_id) st with
  | .ok st' => st'
  | .error _ => st

/-- The consumer loop of `OrderExecutor.run` over a finite tick stream:
every tick is processed, whatever happened on the previous ones. -/
def processTicks (fs : FailSpec) : List Tick → DbState → DbState
  | [], st => st
  | t :: ts, st => processTicks fs ts (process_price_event fs st t)

end OrderExecutor

namespace BacktestEngine

/-! ### The touched_within window -/

theorem touchedLoop_ok_true_iff (ev : Nat → Except BtError Bool) (js : List Nat)
    (h : ∀ j ∈ js, ∃ b, ev j = .ok b) :
    touchedLoop ev js = .ok true ↔ ∃ j ∈ js, ev j = .ok true := by
  induction js with
  | nil => simp [touchedLoop]
  | cons j js ih =>
    obtain ⟨b, hb⟩ := h j (by simp)
    have h' : ∀ k ∈ js, ∃ b, ev k = .ok b := fun k hk => h k (by simp [hk])
    cases b with
    | true =>
      simp only [touchedLoop, hb]
      exact iff_of_true trivial ⟨j, by simp, hb⟩
    | false =>
      simp only [touchedLoop, hb, ih h']
      constructor
      · rintro ⟨k, hk, hkt⟩
        exact ⟨k, by simp [hk], hkt⟩
      · rintro ⟨k, hk, hkt⟩
        rcases List.mem_cons.mp hk with rfl | hk'
        · rw [hkt] at hb; cases hb
        · exact ⟨k, hk', hkt⟩

/-- C3 (amended): for the engine's `touched_within`, provided the inner
condition raises no exception on the scanned window, the result is true
iff the inner condition is true at some `j` in `[max(0, i - W), i]` —
a window of `W + 1` bars ending at and including `i`, one more bar than
the claimed `[max(0, i - W + 1), i]`. -/
theorem touched_within_window (f : Frame) (w : Nat) (inner : Cond) (i : Nat)
    (h : ∀ j, i - w ≤ j → j ≤ i → ∃ b, evaluate_condition f inner j = .ok b) :
    evaluate_condition f (.touchedWithin w inner) i = .ok true ↔
      ∃ j, i - w ≤ j ∧ j ≤ i ∧ evaluate_condition f inner j = .ok true := by
  have hcount : (i - w) + (i + 1 - (i - w)) = i + 1 :=
    Nat.add_sub_cancel' (le_trans (Nat.sub_le i w) (Nat.le_succ i))
  have hmem : ∀ j, j ∈ List.range' (i - w) (i + 1 - (i - w)) ↔ (i - w ≤ j ∧ j ≤ i) := by
    intro j
    rw [List.mem_range'_1, hcount]
    omega
  rw [show evaluate_condition f (.touchedWithin w inner) i =
      touchedLoop (fun j => evaluate_condition f inner j)
        (List.range' (i - w) (i + 1 - (i - w))) from rfl]
  rw [touchedLoop_ok_true_iff _ _ (fun j hj => h j ((hmem j).mp hj).1 ((hmem j).mp hj).2)]
  constructor
  · rintro ⟨j, hj, hjt⟩
    exact ⟨j, ((hmem j).mp hj).1, ((hmem j).mp hj).2, hjt⟩
  · rintro ⟨j, h1, h2, hjt⟩
    exact ⟨j, (hmem j).mpr ⟨h1, h2⟩, hjt⟩

/-- C3 (witness): the amended window semantics at a concrete frame:
`touched_within(window=1, close > 0)` at `i = 1` over closes `[1, 0]` is
true, because the inner condition holds at `j = 0 = i - 1`. -/
theorem touched_within_window_witness :
    evaluate_condition [("close", [some 1, some 0])]
      (.touchedWithin 1 (.threshold "close" ">" 0)) 1 = .ok true :=
  (touched_within_window [("close", [some 1, some 0])] 1 (.threshold "close" ">" 0) 1
    (by
      intro j _ hj
      interval_cases j
      · exact ⟨true, rfl⟩
      · exact ⟨false, rfl⟩)).mpr
    ⟨0, by omega, by omega, rfl⟩

/-- C3 (counterexample): with `W = 1` and inner condition `close > 0` over
closes `[1, 0]`, the inner condition is false at the single index `i = 1`
of the claimed window `[max(0, i - W + 1), i] = [1, 1]`, yet
`touched_within` evaluates true at `i = 1` — the code's window reaches one
bar further back. -/
theorem touched_within_window_cex :
    evaluate_condition [("close", [some 1, some 0])]
      (.touchedWithin 1 (.threshold "close" ">" 0)) 1 = .ok true ∧
    evaluate_condition [("close", [some 1, some 0])]
      (.threshold "close" ">" 0) 1 = .ok false :=
  ⟨rfl, rfl⟩

/-! ### The equity / position columns of _execute_trades -/

/-- The signal column after the trade branch: unchanged or assigned at `i`. -/
theorem tradePhase_signal {f : Frame} {s : Strategy} {times : List Int}
    {close : List Rat} {pos : Int} {sg : List Int} {tr : List Trade} {i : Nat}
    {res : Int × List Int × List Trade}
    (h : tradePhase f s times close pos sg tr i = .ok res) :
    res.2.1 = sg ∨ ∃ v, res.2.1 = sg.set i v := by
  unfold tradePhase at h
  repeat' split at h
  all_goals first
    | (exact Or.inr ⟨_, rfl⟩)
    | (exact Or.inl rfl)
    | (cases h <;> first
        | (exact Or.inr ⟨_, rfl⟩)
        | (exact Or.inl rfl))

/-- Effect of one loop iteration on the position and equity columns:
the position column is assigned at `i`, and the equity cell at `i` becomes
`equity[i-1] + position[i-1] * (close[i] - close[i-1])` where the reads at
`i - 1` see the state before the iteration. -/
theorem execStep_ok {f : Frame} {s : Strategy} {times : List Int}
    {close : List Rat} {st st' : RunState} {i : Nat} (hi : 1 ≤ i)
    (h : execStep f s times close st i = .ok st') :
    ∃ (p : Int) (e : Rat) (pv : Int) (c c' : Rat),
      st'.posCol = st.posCol.set i p ∧
      st'.equity = st.equity.set i (e + (pv : Rat) * (c - c')) ∧
      st.equity.get? (i - 1) = some e ∧
      st.posCol.get? (i - 1) = some pv ∧
      close.get? i = some c ∧ close.get? (i - 1) = some c' ∧
      (∀ j, j ≠ i → st'.signal.get? j = st.signal.get? j) := by
  unfold execStep at h
  split at h
  · cases h
  · rename_i p sg tr htp
    have hip : i > 0 := by omega
    simp only [equityPhase, hip, if_true] at h
    split at h
    · cases h
    · rename_i eqcol heq
      split at heq
      · rename_i e pv c c' he hpv hc hc'
        injection heq with h'
        subst h'
        injection h with h2
        subst h2
        rw [List.get?_set_ne p st.posCol (by omega)] at hpv
        refine ⟨p, e, pv, c, c', rfl, rfl, he, hpv, hc, hc', ?_⟩
        intro j hj
        rcases tradePhase_signal htp with hsg | ⟨v, hsg⟩
        · rw [show sg = st.signal from hsg]
        · rw [show sg = st.signal.set i v from hsg,
            List.get?_set_ne v _ (Ne.symm hj)]
      · cases heq

/-- The loop invariant of `_execute_trades` after the iterations for
indices `1, …, k - 1` have run: columns keep their length, row 0 and all
rows from `k` on still hold their initialisation values, and every row
`1 ≤ j < k` satisfies the equity recurrence. -/
def ExecInv (close : List Rat) (n k : Nat) (st : RunState) : Prop :=
  st.equity.length = n ∧ st.posCol.length = n ∧
  (0 < n → st.equity.get? 0 = some initial_balance ∧ st.posCol.get? 0 = some 0 ∧
    st.signal.get? 0 = some 0) ∧
  (∀ j, k ≤ j → j < n → st.equity.get? j = some initial_balance) ∧
  (∀ j, k ≤ j → j < n → st.posCol.get? j = some 0) ∧
  (∀ j, 1 ≤ j → j < k →
    ∃ e p c c', st.equity.get? (j - 1) = some e ∧ st.posCol.get? (j - 1) = some p ∧
      close.get? j = some c ∧ close.get? (j - 1) = some c' ∧
      st.equity.get? j = some (e + (p : Rat) * (c - c')))

theorem execStep_inv {f : Frame} {s : Strategy} {times : List Int}
    {close : List Rat} {st st' : RunState} {n k : Nat} (hk : 1 ≤ k) (hkn : k < n)
    (hinv : ExecInv close n k st) (h : execStep f s times close st k = .ok st') :
    ExecInv close n (k + 1) st' := by
  obtain ⟨hel, hpl, h0, heu, hpu, hrec⟩ := hinv
  obtain ⟨p, e, pv, c, c', hpc, heq, he, hpv, hc, hc', hsg⟩ := execStep_ok hk h
  have hkne : ∀ j : Nat, j ≠ k → st'.equity.get? j = st.equity.get? j := by
    intro j hj
    rw [heq, List.get?_set_ne _ _ (Ne.symm hj)]
  have hkne' : ∀ j : Nat, j ≠ k → st'.posCol.get? j = st.posCol.get? j := by
    intro j hj
    rw [hpc, List.get?_set_ne _ _ (Ne.symm hj)]
  refine ⟨by rw [heq, List.length_set, hel], by rw [hpc, List.length_set, hpl], ?_, ?_, ?_, ?_⟩
  · intro hn
    obtain ⟨h1, h2, h3⟩ := h0 hn
    exact ⟨by rw [hkne 0 (by omega), h1], by rw [hkne' 0 (by omega), h2],
      by rw [hsg 0 (by omega), h3]⟩
  · intro j hj hjn
    rw [hkne j (by omega)]
    exact heu j (by omega) hjn
  · intro j hj hjn
    rw [hkne' j (by omega)]
    exact hpu j (by omega) hjn
  · intro j h1 hjk1
    by_cases hjk : j = k
    · subst hjk
      refine ⟨e, pv, c, c', ?_, ?_, hc, hc', ?_⟩
      · rw [hkne (j - 1) (by omega)]; exact he
      · rw [hkne' (j - 1) (by omega)]; exact hpv
      · rw [heq, List.get?_set_eq_of_lt _ (by rw [hel]; omega)]
    · obtain ⟨e₀, p₀, c₀, c₀', h₁, h₂, h₃, h₄, h₅⟩ := hrec j h1 (by omega)
      exact ⟨e₀, p₀, c₀, c₀',
        by rw [hkne (j - 1) (by omega)]; exact h₁,
        by rw [hkne' (j - 1) (by omega)]; exact h₂, h₃, h₄,
        by rw [hkne j (by omega)]; exact h₅⟩

theorem execSteps_inv {f : Frame} {s : Strategy} {times : List Int}
    {close : List Rat} {n : Nat} :
    ∀ (m k : Nat) (st st' : RunState), 1 ≤ k → k + m ≤ n →
    ExecInv close n k st →
    execSteps f s times close (List.range' k m) st = .ok st' →
    ExecInv close n (k + m) st' := by
  intro m
  induction m with
  | zero =>
    intro k st st' _ _ hinv h
    injection h with h'
    subst h'
    simpa using hinv
  | succ m ih =>
    intro k st st' hk hkm hinv h
    rw [List.range'_succ] at h
    unfold execSteps at h
    split at h
    · cases h
    · rename_i st₁ hstep
      have hinv₁ := execStep_inv hk (by omega) hinv hstep
      have := ih (k + 1) st₁ st' (by omega) (by omega) hinv₁ h
      simpa [Nat.add_comm, Nat.add_assoc, Nat.add_left_comm] using this

/-- The initial column state satisfies the invariant with `k = 1`. -/
theorem initState_inv (close : List Rat) (n : Nat) :
    ExecInv close n 1 (initState n) := by
  have hrep : ∀ (j : Nat) (q : Rat), j < n → (List.replicate n q).get? j = some q := by
    intro j q hj
    rw [List.get?_eq_getElem?, List.getElem?_replicate, if_pos hj]
  have hrepi : ∀ (j : Nat) (q : Int), j < n → (List.replicate n q).get? j = some q := by
    intro j q hj
    rw [List.get?_eq_getElem?, List.getElem?_replicate, if_pos hj]
  refine ⟨by simp [initState], by simp [initState], ?_, ?_, ?_, ?_⟩
  · intro hn
    exact ⟨hrep 0 _ hn, hrepi 0 _ hn, hrepi 0 _ hn⟩
  · intro j _ hj
    exact hrep j _ hj
  · intro j _ hj
    exact hrepi j _ hj
  · intro j h1 hj
    omega

/-- Every successful `_execute_trades` run satisfies the full invariant. -/
theorem execute_trades_inv {s : Strategy} {bars : List Bar} {extra : Frame}
    {st : RunState} (h : execute_trades s bars extra = .ok st)
    (hn : 1 ≤ bars.length) :
    ExecInv (bars.map (·.close)) bars.length bars.length st := by
  unfold execute_trades at h
  have := execSteps_inv (bars.length - 1) 1 (initState bars.length) st
    (by omega) (by omega) (initState_inv _ _) h
  have heq : 1 + (bars.length - 1) = bars.length := by omega
  rwa [heq] at this

/-- A fully evaluated reference run: the empty strategy over two bars.
Because Python's `all` is true on an empty generator, the empty entry list
fires immediately and the engine goes long on bar 1. -/
theorem exec_empty_bars2 :
    execute_trades ⟨[], [], [], [], []⟩ [⟨0, 1⟩, ⟨1, 2⟩] [] =
      .ok ⟨[0, 1], [0, 1], [1000000, 1000000], [⟨1, 2, "buy"⟩], 1⟩ := by
  norm_num [execute_trades, execSteps, execStep, tradePhase, equityPhase,
    allConds, anyConds, initState, appendTrade, initial_balance,
    List.range', List.replicate]

/-- C1: the equity recurrence.  For every successful backtest over at
least two bars (`1 ≤ i < len(bars)` forces that), the equity column
satisfies `equity[i] = equity[i-1] + position[i-1] * (close[i] -
close[i-1])`, where `position[i-1]` is the position column value set on
the previous bar (one-bar execution lag), and `run` emits an equity curve
with exactly one `(timestamp, equity)` point per input bar. -/
theorem equity_recurrence (s : Strategy) (bars : List Bar) (extra : Frame)
    (st : RunState) (i : Nat) (e c c' : Rat) (p : Int)
    (hst : execute_trades s bars extra = .ok st)
    (hi1 : 1 ≤ i) (hiN : i < bars.length)
    (he : st.equity.get? (i - 1) = some e)
    (hp : st.posCol.get? (i - 1) = some p)
    (hc : (bars.map (·.close)).get? i = some c)
    (hc' : (bars.map (·.close)).get? (i - 1) = some c') :
    st.equity.get? i = some (e + (p : Rat) * (c - c')) ∧
    run s bars extra = .ok ⟨st.trades, (bars.map (·.timestamp)).zip st.equity⟩ ∧
    ((bars.map (·.timestamp)).zip st.equity).length = bars.length := by
  have inv := execute_trades_inv hst (by omega)
  obtain ⟨hel, hpl, -, -, -, hrec⟩ := inv
  obtain ⟨e₀, p₀, c₀, c₀', h1, h2, h3, h4, h5⟩ := hrec i hi1 hiN
  rw [h1] at he
  rw [h2] at hp
  rw [h3] at hc
  rw [h4] at hc'
  obtain rfl : e₀ = e := Option.some.inj he
  obtain rfl : p₀ = p := Option.some.inj hp
  obtain rfl : c₀ = c := Option.some.inj hc
  obtain rfl : c₀' = c' := Option.some.inj hc'
  refine ⟨h5, ?_, ?_⟩
  · unfold run
    rw [if_neg (by omega), hst]
  · rw [List.length_zip, List.length_map, hel, Nat.min_self]

/-- C1 (witness): the recurrence at bar 1 of the two-bar reference run:
`equity[1] = equity[0] + position[0] * (close[1] - close[0])` with
`position[0] = 0`, and the emitted curve has one point per bar. -/
theorem equity_recurrence_witness :
    (⟨[0, 1], [0, 1], [1000000, 1000000], [⟨1, 2, "buy"⟩], 1⟩ : RunState).equity.get? 1 =
      some (1000000 + ((0 : Int) : Rat) * (2 - 1)) ∧
    run ⟨[], [], [], [], []⟩ [⟨0, 1⟩, ⟨1, 2⟩] [] =
      .ok ⟨(⟨[0, 1], [0, 1], [1000000, 1000000], [⟨1, 2, "buy"⟩], 1⟩ : RunState).trades,
        (([⟨0, 1⟩, ⟨1, 2⟩] : List Bar).map (·.timestamp)).zip
          (⟨[0, 1], [0, 1], [1000000, 1000000], [⟨1, 2, "buy"⟩], 1⟩ : RunState).equity⟩ ∧
    ((([⟨0, 1⟩, ⟨1, 2⟩] : List Bar).map (·.timestamp)).zip
      (⟨[0, 1], [0, 1], [1000000, 1000000], [⟨1, 2, "buy"⟩], 1⟩ : RunState).equity).length =
      ([⟨0, 1⟩, ⟨1, 2⟩] : List Bar).length :=
  equity_recurrence ⟨[], [], [], [], []⟩ [⟨0, 1⟩, ⟨1, 2⟩] []
    ⟨[0, 1], [0, 1], [1000000, 1000000], [⟨1, 2, "buy"⟩], 1⟩ 1 1000000 2 1 0
    exec_empty_bars2 (by omega) (by norm_num) rfl rfl rfl rfl

/-- C2 (counterexample): a strategy whose entry condition lists are both
empty produces ONE trade, not zero: `all([])` is `True` in Python, so the
empty buy-entry list is treated as satisfied on the first processed bar
and the engine buys at bar 1. -/
theorem empty_entry_trades_cex :
    run ⟨[], [], [], [], []⟩ [⟨0, 1⟩, ⟨1, 2⟩] [] =
      .ok ⟨[⟨1, 2, "buy"⟩], [(0, 1000000), (1, 1000000)]⟩ := by
  norm_num [run, execute_trades, execSteps, execStep, tradePhase, equityPhase,
    allConds, anyConds, initState, appendTrade, initial_balance,
    List.range', List.zip, List.zipWith, List.replicate]

/-- C5 (amended): the engine does not skip `lookback` bars — it skips
exactly one: the loop of `_execute_trades` starts at index 1 whatever the
indicator lengths are, so only row 0 is guaranteed to keep the
initialisation values (equity = initial balance, position 0, signal 0). -/
theorem first_bar_skipped (s : Strategy) (bars : List Bar) (extra : Frame)
    (st : RunState) (h : execute_trades s bars extra = .ok st)
    (hne : bars ≠ []) :
    st.equity.get? 0 = some initial_balance ∧ st.posCol.get? 0 = some 0 ∧
    st.signal.get? 0 = some 0 :=
  (execute_trades_inv h (List.length_pos.mpr hne)).2.2.1
    (List.length_pos.mpr hne)

/-- C5 (witness): row 0 of the two-bar reference run keeps initial
balance, position 0 and signal 0. -/
theorem first_bar_skipped_witness :
    (⟨[0, 1], [0, 1], [1000000, 1000000], [⟨1, 2, "buy"⟩], 1⟩ : RunState).equity.get? 0 =
      some initial_balance ∧
    (⟨[0, 1], [0, 1], [1000000, 1000000], [⟨1, 2, "buy"⟩], 1⟩ : RunState).posCol.get? 0 =
      some 0 ∧
    (⟨[0, 1], [0, 1], [1000000, 1000000], [⟨1, 2, "buy"⟩], 1⟩ : RunState).signal.get? 0 =
      some 0 :=
  first_bar_skipped ⟨[], [], [], [], []⟩ [⟨0, 1⟩, ⟨1, 2⟩] []
    ⟨[0, 1], [0, 1], [1000000, 1000000], [⟨1, 2, "buy"⟩], 1⟩ exec_empty_bars2
    (by simp)

/-- C5 (counterexample): a strategy declaring an indicator of length 5
(lookback 5) whose buy entry is `close > 0` trades at bar 1 < 5, and the
equity value at bar 2 < 5 is 1000002 ≠ initial balance: the simulator
does not skip `lookback` bars. -/
theorem lookback_not_skipped_cex :
    lookback ⟨[⟨"sma", some 5⟩], [.threshold "close" ">" 0], [], [], []⟩ = 5 ∧
    run ⟨[⟨"sma", some 5⟩], [.threshold "close" ">" 0], [], [], []⟩
      [⟨0, 1⟩, ⟨1, 2⟩, ⟨2, 4⟩] [] =
      .ok ⟨[⟨1, 2, "buy"⟩], [(0, 1000000), (1, 1000000), (2, 1000002)]⟩ := by
  refine ⟨rfl, ?_⟩
  norm_num +decide [run, execute_trades, execSteps, execStep, tradePhase,
    equityPhase, allConds, anyConds, initState, appendTrade, initial_balance,
    evaluate_condition, getSeries, getCell, applyOp, List.lookup,
    List.range', List.zip, List.zipWith, List.replicate]

/-- Equity stays at the initial balance as long as every earlier bar's
position is 0. -/
theorem equity_flat_of_pos_zero {s : Strategy} {bars : List Bar}
    {extra : Frame} {st : RunState}
    (h : execute_trades s bars extra = .ok st) :
    ∀ i, i < bars.length → (∀ j, j < i → st.posCol.get? j = some 0) →
    st.equity.get? i = some initial_balance := by
  intro i
  induction i with
  | zero =>
    intro hi _
    exact ((execute_trades_inv h (by omega)).2.2.1 (by omega)).1
  | succ n ih =>
    intro hi hz
    obtain ⟨-, -, -, -, -, hrec⟩ := execute_trades_inv h (by omega)
    obtain ⟨e, p, c, c', he, hp, -, -, heq⟩ := hrec (n + 1) (by omega) (by omega)
    have hzn := hz n (by omega)
    rw [show n + 1 - 1 = n by omega] at he hp
    rw [hp] at hzn
    obtain rfl : p = 0 := Option.some.inj hzn
    have hE := ih (by omega) (fun j hj => hz j (by omega))
    rw [he] at hE
    obtain rfl : e = initial_balance := Option.some.inj hE
    rw [heq]
    norm_num

/-- C10: the starting capital is the fixed constant 1,000,000 — set in
`__init__`, not a constructor argument — so for every strategy, bar
series and extra columns, every equity value up to which all earlier
positions are 0 (in particular the first one) is exactly 1,000,000. -/
theorem initial_balance_fixed :
    initial_balance = 1000000 ∧
    ∀ (s : Strategy) (bars : List Bar) (extra : Frame) (st : RunState) (i : Nat),
      execute_trades s bars extra = .ok st → i < bars.length →
      (∀ j, j < i → st.posCol.get? j = some 0) →
      st.equity.get? i = some 1000000 :=
  ⟨rfl, fun _ _ _ _ i h hi hz => equity_flat_of_pos_zero h i hi hz⟩

/-- C10 (witness): in the two-bar reference run the pre-trade equity at
bar 1 (position still 0 on bar 0) is exactly 1,000,000. -/
theorem initial_balance_fixed_witness :
    (⟨[0, 1], [0, 1], [1000000, 1000000], [⟨1, 2, "buy"⟩], 1⟩ : RunState).equity.get? 1 =
      some 1000000 :=
  initial_balance_fixed.2 ⟨[], [], [], [], []⟩ [⟨0, 1⟩, ⟨1, 2⟩] []
    ⟨[0, 1], [0, 1], [1000000, 1000000], [⟨1, 2, "buy"⟩], 1⟩ 1 exec_empty_bars2
    (by norm_num)
    (by
      intro j hj
      interval_cases j
      rfl)

/-! ### crosses_above -/

/-- C4 (amended): with both operand columns present, the engine's
`crosses_above` at `i ≥ 1` over numeric cells is true iff
`a[i-1] < b[i-1]` and `a[i] > b[i]`, strict on both bars; but at `i = 0`
it raises `KeyError` (reading label `-1`) instead of evaluating false. -/
theorem crosses_above_semantics (f : Frame) (lhs rhs : String)
    (ls rs : List (Option Rat)) (hl : getSeries f lhs = some ls)
    (hr : getSeries f rhs = some rs) (i : Nat) (hi : 1 ≤ i) (a' b' a b : Rat)
    (ha' : ls.get? (i - 1) = some (some a')) (hb' : rs.get? (i - 1) = some (some b'))
    (ha : ls.get? i = some (some a)) (hb : rs.get? i = some (some b)) :
    (evaluate_condition f (.crossesAbove lhs rhs) i = .ok true ↔ (a' < b' ∧ b < a)) ∧
    evaluate_condition f (.crossesAbove lhs rhs) 0 = .error .keyError := by
  constructor
  · have hne : i ≠ 0 := by omega
    simp only [evaluate_condition, hl, hr, hne, if_false, getCell, ha', hb', ha, hb]
    by_cases hlt : a' < b'
    · simp only [cellLt, decide_eq_true hlt, if_true]
      constructor
      · intro hok
        refine ⟨hlt, ?_⟩
        by_contra hba
        simp [decide_eq_false hba] at hok
      · rintro ⟨-, hba⟩
        simp [decide_eq_true_eq, hba]
    · simp only [cellLt, decide_eq_false hlt, if_false]
      constructor
      · intro hok; cases hok
      · rintro ⟨hc, -⟩; exact absurd hc hlt
  · simp [evaluate_condition, hl, hr]

/-- C4 (witness): concrete columns `x = [1, 2]`, `y = [3, 1]`: at `i = 1`
the cross is genuine (`1 < 3` before, `2 > 1` now) so the condition is
true, and at `i = 0` the evaluation raises `KeyError`. -/
theorem crosses_above_semantics_witness :
    BacktestEngine.evaluate_condition [("x", [some 1, some 2]), ("y", [some 3, some 1])]
      (.crossesAbove "x" "y") 1 = .ok true ∧
    BacktestEngine.evaluate_condition [("x", [some 1, some 2]), ("y", [some 3, some 1])]
      (.crossesAbove "x" "y") 0 = .error .keyError := by
  have h := crosses_above_semantics
    [("x", [some 1, some 2]), ("y", [some 3, some 1])] "x" "y"
    [some 1, some 2] [some 3, some 1] rfl rfl 1 (by omega) 1 3 2 1 rfl rfl rfl rfl
  exact ⟨h.1.mpr (by norm_num), h.2⟩

/-- C4 (counterexample): `crosses_above` at index 0 (both columns present)
raises `KeyError` — it does not evaluate to false as claimed. -/
theorem crosses_above_index0_cex :
    evaluate_condition [("x", [some 1, some 2]), ("y", [some 3, some 1])]
      (.crossesAbove "x" "y") 0 ≠ .ok false ∧
    evaluate_condition [("x", [some 1, some 2]), ("y", [some 3, some 1])]
      (.crossesAbove "x" "y") 0 = .error .keyError := by
  have h : evaluate_condition [("x", [some 1, some 2]), ("y", [some 3, some 1])]
      (.crossesAbove "x" "y") 0 = .error .keyError := rfl
  exact ⟨(by rw [h]; intro hc; cases hc), h⟩

end BacktestEngine

namespace BacktestService

/-- One loop iteration under empty condition groups: the action is
"hold" and only a portfolio-value point is appended. -/
theorem svcStep_hold {d : SvcData} {s : SvcStrategy} {cs : List Rat}
    (hb : s.buy_conditions = ⟨[], []⟩)
    (hclose : d.priceCols.lookup "close" = some cs)
    (hlen : cs.length = d.dates.length)
    (st : SvcState) (hpos : st.position = none) (i : Nat)
    (hi : i < d.dates.length) :
    ∃ date, d.dates.get? i = some date ∧
      svcStep d s st i = .ok { st with history := st.history ++ [(date, st.cash)] } := by
  obtain ⟨price, hprice⟩ : ∃ v, cs.get? i = some v :=
    ⟨_, List.get?_eq_get (by omega)⟩
  obtain ⟨date, hdate⟩ : ∃ v, d.dates.get? i = some v :=
    ⟨_, List.get?_eq_get hi⟩
  refine ⟨date, hdate, ?_⟩
  unfold svcStep evaluate_conditions
  rw [hpos, hb]
  rw [show check_condition_group d ⟨[], []⟩ i = .ok false from rfl]
  simp only [if_false, Bool.false_eq_true, reduceIte]
  rw [List.get?_eq_getElem?] at hprice hdate
  norm_num +decide [update_portfolio_value, closeCol, hclose, ilocAt, hprice,
    hdate, hpos]

/-- The whole loop under empty condition groups: no state change except
one flat portfolio point per processed index. -/
theorem svcSteps_hold {d : SvcData} {s : SvcStrategy} {cs : List Rat}
    (hb : s.buy_conditions = ⟨[], []⟩)
    (hclose : d.priceCols.lookup "close" = some cs)
    (hlen : cs.length = d.dates.length) :
    ∀ (js : List Nat), (∀ j ∈ js, j < d.dates.length) →
    ∀ (st : SvcState), st.position = none →
    ∃ h', svcSteps d s js st = .ok { st with history := st.history ++ h' } ∧
      h'.length = js.length ∧ ∀ pt ∈ h', pt.2 = st.cash := by
  intro js
  induction js with
  | nil =>
    intro _ st hpos
    exact ⟨[], by simp [svcSteps], by simp, by simp⟩
  | cons j js ih =>
    intro hjs st hpos
    obtain ⟨date, -, hstep⟩ := svcStep_hold hb hclose hlen st hpos j (hjs j (by simp))
    obtain ⟨h', hrun, hlen', hval⟩ :=
      ih (fun k hk => hjs k (by simp [hk]))
        { st with history := st.history ++ [(date, st.cash)] } hpos
    refine ⟨(date, st.cash) :: h', ?_, by simp [hlen'], ?_⟩
    · unfold svcSteps
      simp only [hstep, hrun]
      simp
    · intro pt hpt
      rcases List.mem_cons.mp hpt with rfl | hpt'
      · rfl
      · exact hval pt hpt'

/-- C2 (amended): in `BacktestService` — unlike `BacktestEngine`, where
`all([])` lets an empty entry list fire at once — an empty condition
group is never satisfied (`_check_condition_group` falls through to
`False`), so a strategy whose buy and sell groups are both empty yields
zero trades and a portfolio-value curve pinned to the initial cash at
every bar. -/
theorem empty_group_never_fires (d : SvcData) (s : SvcStrategy) (cs : List Rat)
    (hb : s.buy_conditions = ⟨[], []⟩) (hsell : s.sell_conditions = ⟨[], []⟩)
    (hclose : d.priceCols.lookup "close" = some cs)
    (hlen : cs.length = d.dates.length) :
    (∀ i, check_condition_group d ⟨[], []⟩ i = .ok false) ∧
    ∃ stf, simulate d s = .ok stf ∧ stf.trades = [] ∧ stf.cash = initial_cash ∧
      stf.position = none ∧ stf.history.length = d.dates.length ∧
      ∀ pt ∈ stf.history, pt.2 = initial_cash := by
  refine ⟨fun _ => rfl, ?_⟩
  obtain ⟨h', hrun, hlen', hval⟩ :=
    svcSteps_hold hb hclose hlen (List.range d.dates.length)
      (fun j hj => List.mem_range.mp hj) ⟨initial_cash, none, [], []⟩ rfl
  refine ⟨⟨initial_cash, none, [], h'⟩, ?_, rfl, rfl, rfl, ?_, hval⟩
  · unfold simulate
    rw [hrun]
    simp
  · simpa using hlen'

/-- C2 (witness): a one-bar data set with close 5: the empty group
evaluates false and the simulation ends with no trades, full initial
cash and a flat one-point history. -/
theorem empty_group_never_fires_witness :
    check_condition_group ⟨[0], [("close", [5])], [], []⟩ ⟨[], []⟩ 0 = .ok false ∧
    ∃ stf, simulate ⟨[0], [("close", [5])], [], []⟩ ⟨⟨[], []⟩, ⟨[], []⟩, 100⟩ = .ok stf ∧
      stf.trades = [] ∧ stf.cash = initial_cash ∧ stf.position = none ∧
      stf.history.length = 1 ∧ ∀ pt ∈ stf.history, pt.2 = initial_cash := by
  have h := empty_group_never_fires ⟨[0], [("close", [5])], [], []⟩
    ⟨⟨[], []⟩, ⟨[], []⟩, 100⟩ [5] rfl rfl rfl rfl
  exact ⟨h.1 0, h.2⟩

end BacktestService

namespace KpiCalc

/-- The pairing loop ignores any fuel beyond the list length. -/
theorem pairLoop_fuel : ∀ (a b : Nat) (ts : List KTrade),
    ts.length ≤ a → ts.length ≤ b → pairLoop a ts = pairLoop b ts := by
  intro a
  induction a with
  | zero =>
    intro b ts ha _
    have hts : ts = [] := List.eq_nil_of_length_eq_zero (by omega)
    subst hts
    cases b <;> rfl
  | succ a ih =>
    intro b ts ha hb
    match b, ts with
    | 0, ts =>
      have hts : ts = [] := List.eq_nil_of_length_eq_zero (by omega)
      subst hts
      rfl
    | b + 1, [] => rfl
    | b + 1, [t] => rfl
    | b + 1, t1 :: t2 :: rest =>
      have hr : rest.length ≤ a := by simp at ha; omega
      have hrb : rest.length ≤ b := by simp at hb; omega
      have hr1 : (t2 :: rest).length ≤ a := by simp at ha ⊢; omega
      have hrb1 : (t2 :: rest).length ≤ b := by simp at hb ⊢; omega
      simp only [pairLoop]
      by_cases h1 : t1.side = "buy" ∧ t2.side = "sell"
      · rw [if_pos h1, if_pos h1, ih b rest hr hrb]
      · rw [if_neg h1, if_neg h1]
        by_cases h2 : t1.side = "sell" ∧ t2.side = "buy"
        · rw [if_pos h2, if_pos h2, ih b rest hr hrb]
        · rw [if_neg h2, if_neg h2]
          exact ih b (t2 :: rest) hr1 hrb1

/-- Stable insertion grows the length by one. -/
theorem insertByTs_length (t : KTrade) : ∀ us : List KTrade,
    (insertByTs t us).length = us.length + 1 := by
  intro us
  induction us with
  | nil => rfl
  | cons u us ih =>
    unfold insertByTs
    by_cases h : u.timestamp ≤ t.timestamp
    · rw [if_pos h]
      simp [ih]
    · rw [if_neg h]
      simp

/-- Sorting preserves the number of trades. -/
theorem sortTrades_length (ts : List KTrade) :
    (sortTrades ts).length = ts.length := by
  have main : ∀ (l : List KTrade) (acc : List KTrade),
      (l.foldl (fun acc t => insertByTs t acc) acc).length = acc.length + l.length := by
    intro l
    induction l with
    | nil => intro acc; simp
    | cons t l ih =>
      intro acc
      simp only [List.foldl_cons]
      rw [ih (insertByTs t acc), insertByTs_length]
      simp only [List.length_cons]
      omega
  simpa using main ts []

/-- Lists of at most one trade produce no pair. -/
theorem pairPnls_short (ts : List KTrade) (h : ts.length ≤ 1) :
    pairPnls ts = [] := by
  match ts, h with
  | [], _ => rfl
  | [t], _ => rfl

/-- Adjacent buy-then-sell pairing step. -/
theorem pairPnls_buy_sell (a b : KTrade) (rest : List KTrade)
    (ha : a.side = "buy") (hb : b.side = "sell") :
    pairPnls (a :: b :: rest) = (b.price - a.price) :: pairPnls rest := by
  unfold pairPnls
  simp only [List.length_cons, pairLoop, if_pos (And.intro ha hb)]
  rw [pairLoop_fuel (rest.length + 1) rest.length rest (by omega) le_rfl]

/-- Adjacent sell-then-buy pairing step. -/
theorem pairPnls_sell_buy (a b : KTrade) (rest : List KTrade)
    (ha : a.side = "sell") (hb : b.side = "buy") :
    pairPnls (a :: b :: rest) = (a.price - b.price) :: pairPnls rest := by
  unfold pairPnls
  have hne : ¬(a.side = "buy" ∧ b.side = "sell") := by
    rintro ⟨h1, -⟩
    rw [ha] at h1
    exact absurd h1 (by decide)
  simp only [List.length_cons, pairLoop, if_neg hne, if_pos (And.intro ha hb)]
  rw [pairLoop_fuel (rest.length + 1) rest.length rest (by omega) le_rfl]

/-- Models `gross_loss > 0` iff some pair lost money. -/
theorem grossLoss_pos_iff (ps : List Rat) :
    0 < grossLoss ps ↔ ∃ p ∈ ps, p < 0 := by
  unfold grossLoss
  constructor
  · intro h
    by_contra hno
    push_neg at hno
    have hfil : ps.filter (fun p => decide (p < 0)) = [] := by
      rw [List.filter_eq_nil]
      intro a ha
      simp [hno a ha]
    rw [hfil] at h
    simp at h
  · rintro ⟨p, hp, hneg⟩
    apply List.sum_pos
    · intro x hx
      obtain ⟨y, hy, rfl⟩ := List.mem_map.mp hx
      have := List.of_mem_filter hy
      simp at this
      linarith
    · intro hemp
      have : -p ∈ (ps.filter (fun p => decide (p < 0))).map (fun p => -p) :=
        List.mem_map.mpr ⟨p, List.mem_filter.mpr ⟨hp, by simp [hneg]⟩, rfl⟩
      rw [hemp] at this
      cases this

/-- Models `gross_win > 0` iff some pair made money. -/
theorem grossWin_pos_iff (ps : List Rat) :
    0 < grossWin ps ↔ ∃ p ∈ ps, 0 < p := by
  unfold grossWin
  constructor
  · intro h
    by_contra hno
    push_neg at hno
    have hfil : ps.filter (fun p => decide (0 < p)) = [] := by
      rw [List.filter_eq_nil]
      intro a ha
      simp [hno a ha]
    rw [hfil] at h
    simp at h
  · rintro ⟨p, hp, hpos⟩
    apply List.sum_pos
    · intro x hx
      have := List.of_mem_filter hx
      simpa using this
    · intro hemp
      have : p ∈ ps.filter (fun p => decide (0 < p)) :=
        List.mem_filter.mpr ⟨hp, by simp [hpos]⟩
      rw [hemp] at this
      cases this

end KpiCalc

namespace KpiCalc

/-- C9: trade statistics pair the (timestamp-sorted) trade list
sequentially into adjacent buy-then-sell / sell-then-buy round-trips, and
`profit_factor` is gross winning P&L over gross losing P&L: `+inf` exactly
when some pair won and no pair lost, the finite ratio when some pair
lost, and 0 when no pair won. -/
theorem profit_factor_trichotomy (trades : List KTrade) :
    ((compute_trade_stats trades).profit_factor = .inf ↔
      ((∃ p ∈ pairPnls (sortTrades trades), 0 < p) ∧
        ¬∃ p ∈ pairPnls (sortTrades trades), p < 0)) ∧
    ((∃ p ∈ pairPnls (sortTrades trades), p < 0) →
      (compute_trade_stats trades).profit_factor =
        .val (grossWin (pairPnls (sortTrades trades)) /
          grossLoss (pairPnls (sortTrades trades)))) ∧
    ((¬∃ p ∈ pairPnls (sortTrades trades), 0 < p) →
      (compute_trade_stats trades).profit_factor = .val 0) ∧
    (∀ (a b : KTrade) (rest : List KTrade), a.side = "buy" → b.side = "sell" →
      pairPnls (a :: b :: rest) = (b.price - a.price) :: pairPnls rest) ∧
    (∀ (a b : KTrade) (rest : List KTrade), a.side = "sell" → b.side = "buy" →
      pairPnls (a :: b :: rest) = (a.price - b.price) :: pairPnls rest) := by
  refine ⟨?_, ?_, ?_, pairPnls_buy_sell, pairPnls_sell_buy⟩ <;>
    unfold compute_trade_stats
  case refine_1 =>
    by_cases hlt : trades.length < 2
    · have hps : pairPnls (sortTrades trades) = [] :=
        pairPnls_short _ (by rw [sortTrades_length]; omega)
      rw [if_pos hlt, hps]
      simp
    · rw [if_neg hlt]
      by_cases hemp : pairPnls (sortTrades trades) = []
      · rw [if_pos hemp, hemp]
        simp
      · rw [if_neg hemp]
        simp only
        by_cases hgl : 0 < grossLoss (pairPnls (sortTrades trades))
        · rw [if_pos hgl]
          constructor
          · intro h; cases h
          · rintro ⟨-, hno⟩
            exact absurd ((grossLoss_pos_iff _).mp hgl) hno
        · rw [if_neg hgl]
          by_cases hgw : 0 < grossWin (pairPnls (sortTrades trades))
          · rw [if_pos hgw]
            refine iff_of_true rfl ⟨(grossWin_pos_iff _).mp hgw, ?_⟩
            intro hex
            exact hgl ((grossLoss_pos_iff _).mpr hex)
          · rw [if_neg hgw]
            constructor
            · intro h; cases h
            · rintro ⟨hex, -⟩
              exact absurd ((grossWin_pos_iff _).mpr hex) hgw
  case refine_2 =>
    intro hloss
    have hgl := (grossLoss_pos_iff (pairPnls (sortTrades trades))).mpr hloss
    have h2 : ¬trades.length < 2 := by
      intro hlt
      have hps : pairPnls (sortTrades trades) = [] :=
        pairPnls_short _ (by rw [sortTrades_length]; omega)
      rw [hps] at hloss
      obtain ⟨p, hp, -⟩ := hloss
      cases hp
    have hemp : ¬pairPnls (sortTrades trades) = [] := by
      intro hps
      rw [hps] at hloss
      obtain ⟨p, hp, -⟩ := hloss
      cases hp
    rw [if_neg h2, if_neg hemp]
    simp only
    rw [if_pos hgl]
  case refine_3 =>
    intro hnowin
    by_cases hlt : trades.length < 2
    · rw [if_pos hlt]
    · rw [if_neg hlt]
      by_cases hemp : pairPnls (sortTrades trades) = []
      · rw [if_pos hemp]
      · rw [if_neg hemp]
        simp only
        have hgw : ¬0 < grossWin (pairPnls (sortTrades trades)) := by
          intro h
          exact hnowin ((grossWin_pos_iff _).mp h)
        by_cases hgl : 0 < grossLoss (pairPnls (sortTrades trades))
        · rw [if_pos hgl]
          have hwz : grossWin (pairPnls (sortTrades trades)) = 0 := by
            have hnn : 0 ≤ grossWin (pairPnls (sortTrades trades)) := by
              unfold grossWin
              apply List.sum_nonneg
              intro x hx
              have := List.of_mem_filter hx
              simp at this
              linarith
            linarith
          rw [hwz, zero_div]
        · rw [if_neg hgl, if_neg hgw]

/-- C9 (witness): one buy at 10 then one sell at 15 form a single winning
pair, so the profit factor is `+inf`; prepending the pair to further
trades peels off exactly that adjacent round-trip. -/
theorem profit_factor_trichotomy_witness :
    (compute_trade_stats [⟨1, 10, "buy"⟩, ⟨2, 15, "sell"⟩]).profit_factor = .inf ∧
    pairPnls [⟨1, 10, "buy"⟩, ⟨2, 15, "sell"⟩] = [15 - 10] := by
  have h := profit_factor_trichotomy [⟨1, 10, "buy"⟩, ⟨2, 15, "sell"⟩]
  have hps : pairPnls (sortTrades [⟨1, 10, "buy"⟩, ⟨2, 15, "sell"⟩]) = [5] := by
    norm_num +decide [pairPnls, pairLoop, sortTrades, insertByTs]
  refine ⟨h.1.mpr ⟨⟨5, by rw [hps]; norm_num, by norm_num⟩, ?_⟩, ?_⟩
  · rintro ⟨p, hp, hneg⟩
    rw [hps, List.mem_singleton] at hp
    subst hp
    norm_num at hneg
  · rw [h.2.2.2.1 ⟨1, 10, "buy"⟩ ⟨2, 15, "sell"⟩ [] rfl rfl]
    rfl

end KpiCalc

namespace OrderExecutor

/-- Models `update_order_status` touches only the `orders` table. -/
theorem update_order_status_fields {st : DbState} {id : Nat}
    {status : OrderStatus} {st' : DbState}
    (h : update_order_status st id status = .ok st') :
    st'.positions = st.positions ∧ st'.accounts = st.accounts ∧
    st'.executions = st.executions ∧
    st'.orders = st.orders.map (fun o =>
      if o.order_id = id then { o with status := status } else o) := by
  unfold update_order_status at h
  split at h
  · injection h with h'
    subst h'
    exact ⟨rfl, rfl, rfl, rfl⟩
  · cases h

/-- Models `update_balance` touches only the `accounts` table. -/
theorem update_balance_fields {st : DbState} {o : Order} {price : Rat}
    {st' : DbState} (h : update_balance st o price = .ok st') :
    st'.positions = st.positions ∧ st'.orders = st.orders ∧
    st'.executions = st.executions := by
  unfold update_balance at h
  split at h
  · cases h
  · injection h with h'
    subst h'
    exact ⟨rfl, rfl, rfl⟩

/-- Models `update_position` touches only the `positions` table. -/
theorem update_position_fields {st : DbState} {o : Order} {price : Rat}
    {st' : DbState} (h : update_position st o price = .ok st') :
    st'.orders = st.orders ∧ st'.accounts = st.accounts ∧
    st'.executions = st.executions := by
  unfold update_position at h
  split at h
  · split at h
    · rename_i p hp
      split at h
      · cases h
      · injection h with h'
        subst h'
        unfold upsert_position
        split <;> exact ⟨rfl, rfl, rfl⟩
    · injection h with h'
      subst h'
      unfold upsert_position
      split <;> exact ⟨rfl, rfl, rfl⟩
  · split at h
    · cases h
    · rename_i p hp
      split at h
      · injection h with h'
        subst h'
        exact ⟨rfl, rfl, rfl⟩
      · injection h with h'
        subst h'
        unfold upsert_position
        split <;> exact ⟨rfl, rfl, rfl⟩

/-- Rewriting an order's status keeps every other order id's rows intact. -/
theorem filter_map_status (orders : List Order) (oid : Nat)
    (status : OrderStatus) (i : Nat) (hi : oid ≠ i) :
    (orders.map (fun q =>
      if q.order_id = oid then { q with status := status } else q)).filter
        (fun q => q.order_id = i) =
      orders.filter (fun q => q.order_id = i) := by
  induction orders with
  | nil => rfl
  | cons q qs ih =>
    simp only [List.map_cons, List.filter_cons]
    by_cases hq : q.order_id = oid
    · rw [if_pos hq]
      have : ((⟨q.order_id, q.account_id, q.ticker_id, q.side, q.order_type,
          q.quantity, q.limit_price, status⟩ : Order).order_id = i) = (q.order_id = i) := rfl
      simp only [this]
      have hqi : ¬(q.order_id = i) := by rw [hq]; exact hi
      simp [decide_eq_false hqi, ih]
    · rw [if_neg hq]
      by_cases hqi : q.order_id = i
      · simp [decide_eq_true hqi, ih]
      · simp [decide_eq_false hqi, ih]

/-- A fill of order `o` leaves the order rows and execution rows of every
other order id untouched. -/
theorem fill_order_other {fs : FailSpec} {st : DbState} {o : Order}
    {price : Rat} {st' : DbState} (h : fill_order fs st o price = .ok st')
    (i : Nat) (hi : o.order_id ≠ i) :
    st'.orders.filter (fun q => q.order_id = i) =
      st.orders.filter (fun q => q.order_id = i) ∧
    st'.executions.filter (fun e => e.order_id = i) =
      st.executions.filter (fun e => e.order_id = i) := by
  have hcancel : ∀ st₁, cancel_order st o.order_id = .ok st₁ →
      st₁.orders.filter (fun q => q.order_id = i) =
        st.orders.filter (fun q => q.order_id = i) ∧
      st₁.executions.filter (fun e => e.order_id = i) =
        st.executions.filter (fun e => e.order_id = i) := by
    intro st₁ hc
    obtain ⟨-, -, hex, hord⟩ := update_order_status_fields hc
    rw [hord, hex]
    exact ⟨filter_map_status _ _ _ _ hi, rfl⟩
  have hfill : ∀ st₁, fill_steps fs st o price = .ok st₁ →
      st₁.orders.filter (fun q => q.order_id = i) =
        st.orders.filter (fun q => q.order_id = i) ∧
      st₁.executions.filter (fun e => e.order_id = i) =
        st.executions.filter (fun e => e.order_id = i) := by
    intro st₁ hc
    unfold fill_steps at hc
    split at hc
    · cases hc
    · split at hc
      · cases hc
      · split at hc
        · cases hc
        · rename_i st₂ hupd
          split at hc
          · cases hc
          · split at hc
            · cases hc
            · rename_i st₃ hpos
              split at hc
              · cases hc
              obtain ⟨hp2, ha2, he2, ho2⟩ := update_order_status_fields hupd
              obtain ⟨ho3, ha3, he3⟩ := update_position_fields hpos
              obtain ⟨hp4, ho4, he4⟩ := update_balance_fields hc
              constructor
              · rw [ho4, ho3, ho2]
                exact filter_map_status _ _ _ _ hi
              · rw [he4, he3, he2]
                simp only [List.filter_append, List.filter_cons, List.filter_nil]
                have : ¬((⟨o.order_id, o.quantity, price⟩ : Execution).order_id = i) := hi
                simp [this]
  unfold fill_order at h
  split at h
  · split at h
    · cases h
    · split at h
      · cases h
      · split at h
        · exact hcancel st' h
        · exact hfill st' h
  · split at h
    · cases h
    · split at h
      · exact hcancel st' h
      · split at h
        · exact hcancel st' h
        · exact hfill st' h

/-- The per-tick fill loop leaves every order id outside the processed
list untouched (orders and executions). -/
theorem fillLoop_other {fs : FailSpec} {price : Rat} :
    ∀ (os : List Order) (st st' : DbState),
    fillLoop fs price os st = .ok st' → ∀ i, (∀ o' ∈ os, o'.order_id ≠ i) →
    st'.orders.filter (fun q => q.order_id = i) =
      st.orders.filter (fun q => q.order_id = i) ∧
    st'.executions.filter (fun e => e.order_id = i) =
      st.executions.filter (fun e => e.order_id = i) := by
  intro os
  induction os with
  | nil =>
    intro st st' h i _
    injection h with h'
    subst h'
    exact ⟨rfl, rfl⟩
  | cons o os ih =>
    intro st st' h i hne
    unfold fillLoop at h
    split at h
    · split at h
      · cases h
      · rename_i st₁ hfo
        obtain ⟨h1, h2⟩ := fill_order_other hfo i (hne o (by simp))
        obtain ⟨h3, h4⟩ := ih st₁ st' h i (fun o' ho' => hne o' (by simp [ho']))
        exact ⟨h3.trans h1, h4.trans h2⟩
    · exact ih st st' h i (fun o' ho' => hne o' (by simp [ho']))

end OrderExecutor

namespace OrderExecutor

/-- C8: delivering a tick to the matcher is a no-op for any order that is
no longer pending (filled or canceled): only pending orders are selected
for fill processing, so the order's row is untouched and no new execution
is recorded for it — the same tick delivered twice fills an order at most
once. -/
theorem duplicate_tick_noop (fs : FailSpec) (st : DbState) (tick : Tick)
    (o : Order) (ho : o ∈ st.orders) (hstatus : o.status ≠ .pending)
    (hnd : (st.orders.map (fun q => q.order_id)).Nodup) :
    o ∈ (process_price_event fs st tick).orders ∧
    (process_price_event fs st tick).executions.filter
        (fun e => e.order_id = o.order_id) =
      st.executions.filter (fun e => e.order_id = o.order_id) := by
  have hne : ∀ o' ∈ pendingOrders st tick.ticker_id, o'.order_id ≠ o.order_id := by
    intro o' ho' heq
    have hmem : o' ∈ st.orders := List.mem_of_mem_filter ho'
    have hpend := List.of_mem_filter ho'
    simp only [decide_eq_true_eq] at hpend
    have : o' = o := List.inj_on_of_nodup_map hnd hmem ho heq
    subst this
    exact hstatus hpend.2
  unfold process_price_event
  cases hloop : fillLoop fs tick.price (pendingOrders st tick.ticker_id) st with
  | error e =>
    exact ⟨ho, rfl⟩
  | ok st' =>
    obtain ⟨h1, h2⟩ := fillLoop_other _ _ _ hloop o.order_id hne
    refine ⟨?_, h2⟩
    have hmf : o ∈ st.orders.filter (fun q => q.order_id = o.order_id) :=
      List.mem_filter.mpr ⟨ho, by simp⟩
    rw [← h1] at hmf
    exact List.mem_of_mem_filter hmf

/-- C8 (witness): an already-filled sell order is untouched by a second
delivery of the tick that filled it, and no execution is added for it. -/
theorem duplicate_tick_noop_witness :
    (⟨1, 1, 7, .sell, .market, 5, 0, .filled⟩ : Order) ∈
      (process_price_event noFail
        ⟨[⟨1, 1, 7, .sell, .market, 5, 0, .filled⟩], [], [⟨1, 200⟩], [⟨1, 5, 20⟩]⟩
        ⟨7, 20⟩).orders ∧
    (process_price_event noFail
        ⟨[⟨1, 1, 7, .sell, .market, 5, 0, .filled⟩], [], [⟨1, 200⟩], [⟨1, 5, 20⟩]⟩
        ⟨7, 20⟩).executions.filter (fun e => e.order_id = 1) =
      ([⟨1, 5, 20⟩] : List Execution).filter (fun e => e.order_id = 1) := by
  have h := duplicate_tick_noop noFail
    ⟨[⟨1, 1, 7, .sell, .market, 5, 0, .filled⟩], [], [⟨1, 200⟩], [⟨1, 5, 20⟩]⟩
    ⟨7, 20⟩ ⟨1, 1, 7, .sell, .market, 5, 0, .filled⟩ (by simp) (by simp) (by simp)
  exact h

/-- Upserting a nonnegative-quantity position preserves nonnegativity. -/
theorem upsert_position_nonneg {st : DbState} {p : Position}
    (hq : 0 ≤ p.quantity) (hnn : ∀ q ∈ st.positions, 0 ≤ q.quantity) :
    ∀ q ∈ (upsert_position st p).positions, 0 ≤ q.quantity := by
  unfold upsert_position
  split
  · intro q hq'
    obtain ⟨q₀, hq₀, rfl⟩ := List.mem_map.mp hq'
    by_cases hm : q₀.account_id = p.account_id ∧ q₀.ticker_id = p.ticker_id
    · rw [if_pos hm]
      exact hq
    · rw [if_neg hm]
      exact hnn q₀ hq₀
  · intro q hq'
    rcases List.mem_append.mp hq' with h | h
    · exact hnn q h
    · rw [List.mem_singleton] at h
      subst h
      exact hq

/-- Position updates never create a negative quantity (order quantities
are positive by the schema's check constraint; a sell that would leave at
most dust deletes the row instead). -/
theorem update_position_nonneg {st : DbState} {o : Order} {price : Rat}
    {st' : DbState} (h : update_position st o price = .ok st')
    (hq : 0 < o.quantity) (hnn : ∀ q ∈ st.positions, 0 ≤ q.quantity) :
    ∀ q ∈ st'.positions, 0 ≤ q.quantity := by
  unfold update_position at h
  split at h
  · split at h
    · rename_i p hp
      split at h
      · cases h
      · injection h with h'
        subst h'
        have hpm : p ∈ st.positions := List.mem_of_find?_eq_some hp
        have hpq := hnn p hpm
        apply upsert_position_nonneg _ hnn
        show (0 : Rat) ≤ p.quantity + o.quantity
        linarith
    · injection h with h'
      subst h'
      apply upsert_position_nonneg _ hnn
      show (0 : Rat) ≤ o.quantity
      linarith
  · split at h
    · cases h
    · rename_i p hp
      split at h
      · injection h with h'
        subst h'
        intro q hq'
        exact hnn q (List.mem_of_mem_filter hq')
      · rename_i hdust
        injection h with h'
        subst h'
        apply upsert_position_nonneg _ hnn
        show (0 : Rat) ≤ p.quantity - o.quantity
        rw [not_le] at hdust
        have : (0 : Rat) < dustThreshold := by norm_num [dustThreshold]
        linarith

/-- Steps 3–6 of a fill preserve nonnegative position quantities. -/
theorem fill_steps_nonneg {fs : FailSpec} {st : DbState} {o : Order}
    {price : Rat} {st' : DbState} (h : fill_steps fs st o price = .ok st')
    (hq : 0 < o.quantity) (hnn : ∀ q ∈ st.positions, 0 ≤ q.quantity) :
    ∀ q ∈ st'.positions, 0 ≤ q.quantity := by
  unfold fill_steps at h
  split at h
  · cases h
  · split at h
    · cases h
    · split at h
      · cases h
      · rename_i st₂ hupd
        split at h
        · cases h
        · split at h
          · cases h
          · rename_i st₃ hpos
            split at h
            · cases h
            obtain ⟨hp2, -, -, -⟩ := update_order_status_fields hupd
            obtain ⟨hp4, -, -⟩ := update_balance_fields h
            have hnn₂ : ∀ q ∈ st₂.positions, 0 ≤ q.quantity := by
              rw [hp2]
              exact hnn
            have hnn₃ := update_position_nonneg hpos hq hnn₂
            rw [hp4]
            exact hnn₃

/-- A whole `_fill_order` call preserves nonnegative position quantities
(the cancel paths do not touch positions at all). -/
theorem fill_order_nonneg {fs : FailSpec} {st : DbState} {o : Order}
    {price : Rat} {st' : DbState} (h : fill_order fs st o price = .ok st')
    (hq : 0 < o.quantity) (hnn : ∀ q ∈ st.positions, 0 ≤ q.quantity) :
    ∀ q ∈ st'.positions, 0 ≤ q.quantity := by
  have hcancel : ∀ st₁, cancel_order st o.order_id = .ok st₁ →
      ∀ q ∈ st₁.positions, 0 ≤ q.quantity := by
    intro st₁ hc
    obtain ⟨hp, -, -, -⟩ := update_order_status_fields hc
    rw [hp]
    exact hnn
  unfold fill_order at h
  split at h
  · split at h
    · cases h
    · split at h
      · cases h
      · split at h
        · exact hcancel st' h
        · exact fill_steps_nonneg h hq hnn
  · split at h
    · cases h
    · split at h
      · exact hcancel st' h
      · split at h
        · exact hcancel st' h
        · exact fill_steps_nonneg h hq hnn

/-- The per-tick loop preserves nonnegative position quantities. -/
theorem fillLoop_nonneg {fs : FailSpec} {price : Rat} :
    ∀ (os : List Order) (st st' : DbState),
    fillLoop fs price os st = .ok st' → (∀ q ∈ os, 0 < q.quantity) →
    (∀ q ∈ st.positions, 0 ≤ q.quantity) →
    ∀ q ∈ st'.positions, 0 ≤ q.quantity := by
  intro os
  induction os with
  | nil =>
    intro st st' h _ hnn
    injection h with h'
    subst h'
    exact hnn
  | cons o os ih =>
    intro st st' h hq hnn
    unfold fillLoop at h
    split at h
    · split at h
      · cases h
      · rename_i st₁ hfo
        exact ih st₁ st' h (fun q hmem => hq q (by simp [hmem]))
          (fill_order_nonneg hfo (hq o (by simp)) hnn)
    · exact ih st st' h (fun q hmem => hq q (by simp [hmem])) hnn

end OrderExecutor

namespace OrderExecutor

/-- Models `get_position` depends only on the positions table. -/
theorem get_position_congr {st₁ st₂ : DbState}
    (h : st₁.positions = st₂.positions) (a t : Nat) :
    get_position st₁ a t = get_position st₂ a t := by
  unfold get_position
  rw [h]

/-- Models `find?` commutes with a map that preserves the predicate. -/
theorem find?_map_of_pred {f : Position → Position} {pred : Position → Bool}
    (hpred : ∀ q, pred (f q) = pred q) :
    ∀ (l : List Position) (p : Position), l.find? pred = some p →
      (l.map f).find? pred = some (f p) := by
  intro l
  induction l with
  | nil => intro p h; cases h
  | cons x xs ih =>
    intro p h
    by_cases hx : pred x = true
    · rw [List.find?_cons_of_pos _ hx] at h
      injection h with h'
      subst h'
      rw [List.map_cons, List.find?_cons_of_pos _ (by rw [hpred]; exact hx)]
    · rw [List.find?_cons_of_neg _ (by simp [hx])] at h
      rw [List.map_cons, List.find?_cons_of_neg _ (by rw [hpred]; simp [hx])]
      exact ih p h

/-- C7: live fills never drive a position negative.  A sell with no (or
an insufficient) held position is transitioned directly to canceled with
positions, accounts and executions untouched; a sell that does fill
leaves `old − qty ≥ 0` and deletes the row entirely when the remainder is
at or below the dust threshold (otherwise the row keeps the remainder);
and processing any tick preserves `0 ≤ quantity` for every position. -/
theorem sell_fill_never_negative (fs : FailSpec) (st : DbState) (o : Order)
    (price : Rat) (hside : o.side = .sell)
    (hof : fs.failPositionFetch o.order_id = false)
    (hin : st.orders.any (fun q => q.order_id = o.order_id) = true) :
    ((get_position st o.account_id o.ticker_id = none ∨
      ∃ p, get_position st o.account_id o.ticker_id = some p ∧
        p.quantity < o.quantity) →
      fill_order fs st o price =
        .ok { st with orders := st.orders.map (fun q =>
          if q.order_id = o.order_id then { q with status := .canceled } else q) }) ∧
    (∀ p st', get_position st o.account_id o.ticker_id = some p →
      o.quantity ≤ p.quantity →
      fill_order fs st o price = .ok st' →
      0 ≤ p.quantity - o.quantity ∧
      (p.quantity - o.quantity ≤ dustThreshold →
        get_position st' o.account_id o.ticker_id = none) ∧
      (dustThreshold < p.quantity - o.quantity →
        get_position st' o.account_id o.ticker_id =
          some ⟨p.account_id, p.ticker_id, p.quantity - o.quantity,
            p.average_buy_price⟩)) ∧
    (∀ tick, (∀ q ∈ st.positions, 0 ≤ q.quantity) →
      (∀ q ∈ st.orders, 0 < q.quantity) →
      ∀ q ∈ (process_price_event fs st tick).positions, 0 ≤ q.quantity) := by
  have hcancel : cancel_order st o.order_id =
      .ok { st with orders := st.orders.map (fun q =>
        if q.order_id = o.order_id then { q with status := .canceled } else q) } := by
    unfold cancel_order update_order_status
    rw [if_pos hin]
  refine ⟨?_, ?_, ?_⟩
  · intro hbad
    unfold fill_order
    simp only [hside]
    rw [hof]
    simp only [Bool.false_eq_true, if_false]
    rcases hbad with hnone | ⟨p, hp, hlt⟩
    · simp only [hnone]
      exact hcancel
    · simp only [hp]
      rw [if_pos hlt]
      exact hcancel
  · intro p st' hp hle hfo
    refine ⟨by linarith, ?_⟩
    unfold fill_order at hfo
    simp only [hside] at hfo
    rw [hof] at hfo
    simp only [Bool.false_eq_true, if_false] at hfo
    simp only [hp] at hfo
    rw [if_neg (not_lt.mpr hle)] at hfo
    unfold fill_steps at hfo
    split at hfo
    · cases hfo
    · split at hfo
      · cases hfo
      · split at hfo
        · cases hfo
        · rename_i st₂ hupd
          split at hfo
          · cases hfo
          · split at hfo
            · cases hfo
            · rename_i st₃ hpos
              split at hfo
              · cases hfo
              obtain ⟨hp2, -, -, -⟩ := update_order_status_fields hupd
              obtain ⟨hp4, -, -⟩ := update_balance_fields hfo
              have hget2 : get_position st₂ o.account_id o.ticker_id = some p := by
                rw [get_position_congr (hp2.trans rfl) _ _]
                exact hp
              unfold update_position at hpos
              simp only [hside] at hpos
              simp only [hget2] at hpos
              have hpa := List.find?_some hp
              simp only [decide_eq_true_eq] at hpa
              constructor
              · intro hdust
                rw [if_pos hdust] at hpos
                injection hpos with h3
                subst h3
                rw [get_position_congr hp4 _ _]
                unfold get_position delete_position
                rw [List.find?_eq_none]
                intro q hq
                have := List.of_mem_filter hq
                simp only [decide_eq_true_eq] at this ⊢
                simpa using this
              · intro hdust
                rw [if_neg (not_le.mpr hdust)] at hpos
                injection hpos with h3
                subst h3
                rw [get_position_congr hp4 _ _]
                unfold upsert_position
                have hsome : (get_position st₂
                    (⟨p.account_id, p.ticker_id, p.quantity - o.quantity,
                      p.average_buy_price⟩ : Position).account_id
                    (⟨p.account_id, p.ticker_id, p.quantity - o.quantity,
                      p.average_buy_price⟩ : Position).ticker_id).isSome := by
                  show (get_position st₂ p.account_id p.ticker_id).isSome
                  rw [hpa.1, hpa.2, hget2]
                  rfl
                rw [if_pos hsome]
                have hmap := @find?_map_of_pred
                  (fun q =>
                    if q.account_id = p.account_id ∧ q.ticker_id = p.ticker_id
                    then { q with quantity := p.quantity - o.quantity,
                                  average_buy_price := p.average_buy_price }
                    else q)
                  (fun q => decide (q.account_id = o.account_id ∧
                    q.ticker_id = o.ticker_id))
                  (by intro q; dsimp only; split <;> rfl)
                  st₂.positions p hget2
                dsimp only at hmap
                rw [if_pos ⟨rfl, rfl⟩] at hmap
                exact hmap
  · intro tick hnn hqty
    unfold process_price_event
    cases hloop : fillLoop fs tick.price (pendingOrders st tick.ticker_id) st with
    | error e => exact hnn
    | ok st' =>
      exact fillLoop_nonneg _ _ _ hloop
        (fun q hq => hqty q (List.mem_of_mem_filter hq)) hnn

/-- C7 (witness): a market sell of the whole 5-share position fills,
leaves remainder 0 ≥ 0 and deletes the position row (0 ≤ dust). -/
theorem sell_fill_never_negative_witness :
    (0 : Rat) ≤ 5 - 5 ∧
    get_position ⟨[⟨1, 1, 7, .sell, .market, 5, 0, .filled⟩], [],
      [⟨1, 200⟩], [⟨1, 5, 20⟩]⟩ 1 7 = none := by
  have h := (sell_fill_never_negative noFail
    ⟨[⟨1, 1, 7, .sell, .market, 5, 0, .pending⟩], [⟨1, 7, 5, 10⟩], [⟨1, 100⟩], []⟩
    ⟨1, 1, 7, .sell, .market, 5, 0, .pending⟩ 20 rfl rfl (by simp)).2.1
    ⟨1, 7, 5, 10⟩
    ⟨[⟨1, 1, 7, .sell, .market, 5, 0, .filled⟩], [], [⟨1, 200⟩], [⟨1, 5, 20⟩]⟩
    rfl (by norm_num)
    (by norm_num +decide [fill_order, fill_steps, noFail, get_position,
      get_account_by_id, update_order_status, update_position, update_balance,
      upsert_position, delete_position, dustThreshold, cancel_order,
      List.find?, List.filter, List.any, List.map])
  exact ⟨h.1, h.2.1 (by norm_num [dustThreshold])⟩

/-- C6 (amended): a failure inside any order's fill steps aborts the
WHOLE tick, not just that order's fill: the session is rolled back, so
the database state is exactly what it was before the tick — the
remaining pending orders of the same tick are not processed — and the
consumer loop goes on with the next tick. -/
theorem tick_failure_aborts_atomically (fs : FailSpec) (st : DbState)
    (tick : Tick) :
    (∀ e, fillLoop fs tick.price (pendingOrders st tick.ticker_id) st = .error e →
      process_price_event fs st tick = st) ∧
    (∀ st', fillLoop fs tick.price (pendingOrders st tick.ticker_id) st = .ok st' →
      process_price_event fs st tick = st') ∧
    (∀ ts, processTicks fs (tick :: ts) st =
      processTicks fs ts (process_price_event fs st tick)) := by
  refine ⟨?_, ?_, fun ts => rfl⟩
  · intro e he
    unfold process_price_event
    rw [he]
  · intro st' h
    unfold process_price_event
    rw [h]

/-- C6 (witness): with a database failure injected into the execution
record step of order 1, the tick leaves the state untouched. -/
theorem tick_failure_aborts_atomically_witness :
    process_price_event
      ⟨fun _ => false, fun _ => false, fun n => decide (n = 1),
       fun _ => false, fun _ => false, fun _ => false⟩
      ⟨[⟨1, 1, 7, .sell, .market, 5, 0, .pending⟩], [⟨1, 7, 5, 10⟩],
       [⟨1, 100⟩], []⟩ ⟨7, 20⟩ =
      ⟨[⟨1, 1, 7, .sell, .market, 5, 0, .pending⟩], [⟨1, 7, 5, 10⟩],
       [⟨1, 100⟩], []⟩ :=
  (tick_failure_aborts_atomically
    ⟨fun _ => false, fun _ => false, fun n => decide (n = 1),
     fun _ => false, fun _ => false, fun _ => false⟩
    ⟨[⟨1, 1, 7, .sell, .market, 5, 0, .pending⟩], [⟨1, 7, 5, 10⟩],
     [⟨1, 100⟩], []⟩ ⟨7, 20⟩).1 .dbFailure
    (by norm_num +decide [fillLoop, pendingOrders, should_fill, fill_order,
      fill_steps, get_position, List.filter, List.find?])

/-- C6 (counterexample): order 2 is eligible and valid on the tick, but
because order 1's fill fails first (injected failure in its execution
record step), the whole tick is rolled back and order 2 is left pending,
unprocessed — the matcher does NOT continue with the next pending order
of the same tick. -/
theorem fill_failure_skips_next_order_cex :
    process_price_event
      ⟨fun _ => false, fun _ => false, fun n => decide (n = 1),
       fun _ => false, fun _ => false, fun _ => false⟩
      ⟨[⟨1, 1, 7, .sell, .market, 5, 0, .pending⟩,
        ⟨2, 2, 7, .sell, .market, 3, 0, .pending⟩],
       [⟨1, 7, 5, 10⟩, ⟨2, 7, 3, 10⟩], [⟨1, 100⟩, ⟨2, 50⟩], []⟩ ⟨7, 20⟩ =
      ⟨[⟨1, 1, 7, .sell, .market, 5, 0, .pending⟩,
        ⟨2, 2, 7, .sell, .market, 3, 0, .pending⟩],
       [⟨1, 7, 5, 10⟩, ⟨2, 7, 3, 10⟩], [⟨1, 100⟩, ⟨2, 50⟩], []⟩ ∧
    should_fill ⟨2, 2, 7, .sell, .market, 3, 0, .pending⟩ 20 = true ∧
    (⟨2, 2, 7, .sell, .market, 3, 0, .pending⟩ : Order).status = .pending := by
  refine ⟨?_, rfl, rfl⟩
  norm_num +decide [process_price_event, pendingOrders, fillLoop, should_fill,
    fill_order, fill_steps, get_position, List.filter, List.find?]

end OrderExecutor
